import Mathlib

/-!
HCI advertising-report decoding (soneda-yuya/ble)

A shallow embedding of the event decoders of `linux/hci/evt/evt.go` and
`linux/hci/extended_adv.go`.

* A Go `[]byte` is a `List Byte`, `Byte = Fin 256`.
* A Go run-time panic (index or slice out of range) is a separate outcome:
  the accessors of `evt.go` return `Option` (`none` = panic), the two
  extended-report parsers return `Except Fault`, where `Fault.panic` is the
  run-time panic and `Fault.error` the Go `error` value they return.
* A slice's capacity is taken to be its length, so a reslice past the length
  counts as out of range.
-/

namespace BLE

/-- One octet of an HCI packet. -/
abbrev Byte := Fin 256

/-- Go conversion `uint8(n)`. -/
def byteOf (n : Nat) : Byte := ⟨n % 256, Nat.mod_lt _ (by decide)⟩

/-- Go conversion `int8(b)`: the octet read as a two's-complement value. -/
def toInt8 (b : Byte) : Int :=
  if b.val < 128 then (b.val : Int) else (b.val : Int) - 256

/-- Go expression `uint16(lo) | uint16(hi)<<8`. -/
def le16 (lo hi : Byte) : Nat := (lo.val ||| (hi.val <<< 8)) % 65536

/-- Go index expression `e[i]`; `none` is the index-out-of-range panic. -/
def index (e : List Byte) (i : Nat) : Option Byte := e[i]?

/-- Go slice expression `e[lo:]`; `none` is the slice-bounds panic. -/
def sliceFrom (e : List Byte) (lo : Nat) : Option (List Byte) :=
  if lo ≤ e.length then some (e.drop lo) else none

/-- Go slice expression `e[:hi]`; `none` is the slice-bounds panic. -/
def sliceTo (e : List Byte) (hi : Nat) : Option (List Byte) :=
  if hi ≤ e.length then some (e.take hi) else none

/-- Go slice expression `e[lo:hi]`; `none` is the slice-bounds panic. -/
def slice (e : List Byte) (lo hi : Nat) : Option (List Byte) :=
  if lo ≤ hi ∧ hi ≤ e.length then some ((e.take hi).drop lo) else none

/-- Go `copy(b[:], src)` into a zeroed `[6]byte`: the first `min 6 (len src)`
octets of `src`, the rest left zero. -/
def copy6 (src : List Byte) : List Byte :=
  src.take 6 ++ List.replicate (6 - (src.take 6).length) 0

/-! ## `evt.LEAdvertisingReport`: accessors over the columnar legacy body -/

namespace evt

/-- `func (e LEAdvertisingReport) SubeventCode() uint8 { return e[0] }` -/
def LEAdvertisingReport.SubeventCode (e : List Byte) : Option Byte := index e 0

/-- `func (e LEAdvertisingReport) NumReports() uint8 { return e[1] }` -/
def LEAdvertisingReport.NumReports (e : List Byte) : Option Byte := index e 1

/-- `func (e LEAdvertisingReport) EventType(i int) uint8 { return e[2+i] }` -/
def LEAdvertisingReport.EventType (e : List Byte) (i : Nat) : Option Byte :=
  index e (2 + i)

/-- `AddressType(i)` is `e[2+int(e.NumReports())*1+i]`. -/
def LEAdvertisingReport.AddressType (e : List Byte) (i : Nat) : Option Byte := do
  let n ← LEAdvertisingReport.NumReports e
  index e (2 + n.val * 1 + i)

/-- `Address(i)`: `e = e[2+int(e.NumReports())*2:]; copy(b[:], e[6*i:])`. -/
def LEAdvertisingReport.Address (e : List Byte) (i : Nat) : Option (List Byte) := do
  let n ← LEAdvertisingReport.NumReports e
  let e1 ← sliceFrom e (2 + n.val * 2)
  let src ← sliceFrom e1 (6 * i)
  pure (copy6 src)

/-- `LengthData(i)` is `e[2+int(e.NumReports())*8+i]`. -/
def LEAdvertisingReport.LengthData (e : List Byte) (i : Nat) : Option Byte := do
  let n ← LEAdvertisingReport.NumReports e
  index e (2 + n.val * 8 + i)

/-- The accumulator of `for j := 0; j < k; j++ { l += int(e.LengthData(j)) }`
after its `k` iterations. -/
def LEAdvertisingReport.lengthLoop (e : List Byte) : Nat → Option Nat
  | 0 => some 0
  | k + 1 => do
    let l ← LEAdvertisingReport.lengthLoop e k
    let d ← LEAdvertisingReport.LengthData e k
    pure (l + d.val)

/-- `Data(i)`: sums the lengths of the reports before `i`, then
`b := e[2+int(e.NumReports())*9+l:]; return b[:e.LengthData(i)]`. -/
def LEAdvertisingReport.Data (e : List Byte) (i : Nat) : Option (List Byte) := do
  let l ← LEAdvertisingReport.lengthLoop e i
  let n ← LEAdvertisingReport.NumReports e
  let b ← sliceFrom e (2 + n.val * 9 + l)
  let d ← LEAdvertisingReport.LengthData e i
  sliceTo b d.val

/-- `RSSI(i)`: sums the lengths of all `NumReports()` reports, then
`return int8(e[2+int(e.NumReports())*9+l+i])`. -/
def LEAdvertisingReport.RSSI (e : List Byte) (i : Nat) : Option Int := do
  let n ← LEAdvertisingReport.NumReports e
  let l ← LEAdvertisingReport.lengthLoop e n.val
  let b ← index e (2 + n.val * 9 + l + i)
  pure (toInt8 b)

end evt

/-! ## Outcomes of the extended-report parsers -/

/-- The Go `error` values built by the two extended-report parsers, with the
numbers their format strings print. -/
inductive ParseError where
  /-- `"invalid data length"` -/
  | invalidDataLength
  /-- evt: `"invalid data length for report %d"` -/
  | invalidReport (i : Nat)
  /-- evt: `"invalid data length for report %d data"` -/
  | invalidReportData (i : Nat)
  /-- hci: `"invalid data length %d for report %d"` -/
  | invalidLengthForReport (len i : Nat)
  /-- hci: `"invalid data length %d, dataEnd %d, for report %d data"` -/
  | invalidDataEnd (len dataEnd i : Nat)
  deriving DecidableEq, Repr

/-- How a parser call can end without a result: with a returned `error`, or
with a run-time panic (index or slice out of range). -/
inductive Fault where
  | error (e : ParseError)
  | panic
  deriving DecidableEq, Repr

/-- `data[i]` inside a parser. -/
def byteAt (data : List Byte) (i : Nat) : Except Fault Byte :=
  match index data i with
  | some b => .ok b
  | none => .error .panic

/-- `data[lo:hi]` inside a parser. -/
def sliceOf (data : List Byte) (lo hi : Nat) : Except Fault (List Byte) :=
  match slice data lo hi with
  | some b => .ok b
  | none => .error .panic

/-! ## `evt.NewExtendedAdvertisingReport` -/

namespace evt

/-- `LEExtendedAdvertisingReportMetaDataLength` -/
def LEExtendedAdvertisingReportMetaDataLength : Nat := 2

/-- `LEExtendedAdvertisingReportFixedDataLength` -/
def LEExtendedAdvertisingReportFixedDataLength : Nat := 24

/-- `evt.ExtendedAdvertisingData`; the `ScanResp` pointer, which the parser
leaves nil, is a flag here. -/
structure ExtendedAdvertisingData where
  EventType : Nat
  AddressType : Byte
  Address : List Byte
  PrimaryPHY : Byte
  SecondaryPHY : Byte
  AdvertisingSID : Byte
  TXPower : Int
  RSSI : Int
  PeriodicAdvertisingInterval : Nat
  DirectAddressType : Byte
  DirectAddress : List Byte
  DataLength : Byte
  Data : List Byte
  ScanRespIsNil : Bool
  deriving DecidableEq, Repr

/-- `evt.ExtendedAdvertisingReport` -/
structure ExtendedAdvertisingReport where
  SubeventCode : Byte
  NumReports : Byte
  Reports : List ExtendedAdvertisingData
  deriving DecidableEq, Repr

/-- The body of `for i := 0; i < int(report.NumReports); i++` in
`NewExtendedAdvertisingReport`, run for the `k` iterations that remain, from
loop counter `i`, `offset` and the reports appended so far. -/
def NewExtendedAdvertisingReport.loop (data : List Byte) :
    Nat → Nat → Nat → List ExtendedAdvertisingData →
    Except Fault (List ExtendedAdvertisingData)
  | 0, _, _, reports => .ok reports
  | k + 1, i, offset, reports =>
    if offset + 26 > data.length then
      .error (.error (.invalidReport i))
    else do
      let d0 ← byteAt data offset
      let d1 ← byteAt data (offset + 1)
      let addressType ← byteAt data (offset + 2)
      let primaryPHY ← byteAt data (offset + 11)
      let secondaryPHY ← byteAt data (offset + 12)
      let advertisingSID ← byteAt data (offset + 13)
      let txPower ← byteAt data (offset + 14)
      let rssi ← byteAt data (offset + 15)
      let p0 ← byteAt data (offset + 16)
      let p1 ← byteAt data (offset + 17)
      let directAddressType ← byteAt data (offset + 18)
      let dataLength ← byteAt data (offset + 25)
      let address ← sliceOf data (offset + 3) (offset + 9)
      let directAddress ← sliceOf data (offset + 19) (offset + 25)
      let dataEnd := offset + 26 + dataLength.val
      if dataEnd > data.length then
        .error (.error (.invalidReportData i))
      else do
        let payload ← sliceOf data (offset + 26) dataEnd
        let r : ExtendedAdvertisingData :=
          { EventType := le16 d0 d1
            AddressType := addressType
            Address := copy6 address
            PrimaryPHY := primaryPHY
            SecondaryPHY := secondaryPHY
            AdvertisingSID := advertisingSID
            TXPower := toInt8 txPower
            RSSI := toInt8 rssi
            PeriodicAdvertisingInterval := le16 p0 p1
            DirectAddressType := directAddressType
            DirectAddress := copy6 directAddress
            DataLength := dataLength
            Data := payload
            ScanRespIsNil := true }
        NewExtendedAdvertisingReport.loop data k (i + 1) dataEnd (reports ++ [r])

/-- `func NewExtendedAdvertisingReport(data LEExtendedAdvertisingReport)
(*ExtendedAdvertisingReport, error)` -/
def NewExtendedAdvertisingReport (data : List Byte) :
    Except Fault ExtendedAdvertisingReport :=
  if data.length < 2 then
    .error (.error .invalidDataLength)
  else do
    let subeventCode ← byteAt data 0
    let numReports ← byteAt data 1
    let reports ← NewExtendedAdvertisingReport.loop data numReports.val 0 2 []
    pure { SubeventCode := subeventCode, NumReports := numReports, Reports := reports }

end evt

/-! ## `hci.newLEExtendedAdvertisingReport` and the record's methods -/

/-- Modelled from the spec: `adv.Packet` of package `linux/adv` is not among
the sources; it is the AD decoder's view of the raw AD bytes it is given. -/
structure adv.Packet where
  b : List Byte
  deriving DecidableEq, Repr

namespace hci

/-- `const reportDataStaticLength = 24` -/
def reportDataStaticLength : Nat := 24

/-- `hci.ExtendedAdvertisingData`. The `scanResp` pointer is `none` for nil
and `some` of the record pointed to; `p` is the cached packet. -/
structure ExtendedAdvertisingData where
  eventType : Nat
  addressType : Byte
  address : List Byte
  primaryPHY : Byte
  secondaryPHY : Byte
  advertisingSID : Byte
  txPower : Int
  rssi : Int
  periodicAdvertisingInterval : Nat
  directAddressType : Byte
  directAddress : List Byte
  dataLength : Byte
  data : List Byte
  scanResp : Option ExtendedAdvertisingData
  p : Option adv.Packet

/-- The Go zero value `ExtendedAdvertisingData{}`. -/
def ExtendedAdvertisingData.zero : ExtendedAdvertisingData :=
  { eventType := 0, addressType := 0, address := [], primaryPHY := 0,
    secondaryPHY := 0, advertisingSID := 0, txPower := 0, rssi := 0,
    periodicAdvertisingInterval := 0, directAddressType := 0,
    directAddress := [], dataLength := 0, data := [], scanResp := none,
    p := none }

/-- `hci.LEExtendedAdvertisingReport` -/
structure LEExtendedAdvertisingReport where
  SubeventCode : Byte
  NumReports : Byte
  Reports : List ExtendedAdvertisingData

/-- The body of `for i := 0; i < int(report.NumReports); i++` in
`newLEExtendedAdvertisingReport`, run for the `k` iterations that remain, from
loop counter `i`, `offset` and the reports appended so far. -/
def newLEExtendedAdvertisingReport.loop (data : List Byte) :
    Nat → Nat → Nat → List ExtendedAdvertisingData →
    Except Fault (List ExtendedAdvertisingData)
  | 0, _, _, reports => .ok reports
  | k + 1, i, offset, reports =>
    if offset + reportDataStaticLength > data.length then
      .error (.error (.invalidLengthForReport data.length i))
    else do
      let d0 ← byteAt data offset
      let d1 ← byteAt data (offset + 1)
      let addressType ← byteAt data (offset + 2)
      let address ← sliceOf data (offset + 3) (offset + 9)
      let primaryPHY ← byteAt data (offset + 9)
      let secondaryPHY ← byteAt data (offset + 10)
      let advertisingSID ← byteAt data (offset + 11)
      let txPower ← byteAt data (offset + 12)
      let rssi ← byteAt data (offset + 13)
      let p0 ← byteAt data (offset + 14)
      let p1 ← byteAt data (offset + 15)
      let directAddressType ← byteAt data (offset + 16)
      let directAddress ← sliceOf data (offset + 19) (offset + 22)
      let dataLength ← byteAt data (offset + 23)
      let dataEnd := offset + reportDataStaticLength + dataLength.val
      if dataEnd > data.length then
        .error (.error (.invalidDataEnd data.length dataEnd i))
      else do
        let payload ← sliceOf data (offset + reportDataStaticLength) dataEnd
        let r : ExtendedAdvertisingData :=
          { eventType := le16 d0 d1
            addressType := addressType
            address := address
            primaryPHY := primaryPHY
            secondaryPHY := secondaryPHY
            advertisingSID := advertisingSID
            txPower := toInt8 txPower
            rssi := toInt8 rssi
            periodicAdvertisingInterval := le16 p0 p1
            directAddressType := directAddressType
            directAddress := directAddress
            dataLength := dataLength
            data := payload
            scanResp := some ExtendedAdvertisingData.zero
            p := none }
        newLEExtendedAdvertisingReport.loop data k (i + 1) dataEnd (reports ++ [r])

/-- `func newLEExtendedAdvertisingReport(data evt.LEExtendedAdvertisingReport)
(*LEExtendedAdvertisingReport, error)` -/
def newLEExtendedAdvertisingReport (data : List Byte) :
    Except Fault LEExtendedAdvertisingReport :=
  if data.length < 2 then
    .error (.error .invalidDataLength)
  else do
    let subeventCode ← byteAt data 0
    let numReports ← byteAt data 1
    let reports ← newLEExtendedAdvertisingReport.loop data numReports.val 0 2 []
    pure { SubeventCode := subeventCode, NumReports := numReports, Reports := reports }

/-- `func (a *ExtendedAdvertisingData) SetScanResp(d *ExtendedAdvertisingData)` -/
def ExtendedAdvertisingData.SetScanResp (a d : ExtendedAdvertisingData) :
    ExtendedAdvertisingData :=
  { a with scanResp := some d }

/-- `func (a *ExtendedAdvertisingData) packets() *adv.Packet`, over the
constructor `adv.NewRawPacket` of the AD decoder (package `linux/adv`, not
among the sources), which receives the buffer `b`. -/
def ExtendedAdvertisingData.packets (NewRawPacket : List Byte → adv.Packet)
    (a : ExtendedAdvertisingData) : adv.Packet :=
  match a.p with
  | some p => p
  | none =>
    let b := a.data
    let b := match a.scanResp with
      | some s => b ++ s.data
      | none => b
    NewRawPacket b

/-- `func (a *ExtendedAdvertisingData) EventType() uint16` -/
def ExtendedAdvertisingData.EventType (a : ExtendedAdvertisingData) : Nat :=
  a.eventType

/-- `func (a *ExtendedAdvertisingData) RSSI() int` -/
def ExtendedAdvertisingData.RSSI (a : ExtendedAdvertisingData) : Int := a.rssi

/-- `func (a *ExtendedAdvertisingData) Data() []byte` -/
def ExtendedAdvertisingData.Data (a : ExtendedAdvertisingData) : List Byte := a.data

end hci

/-- The legacy report body of scenario B. -/
def scenarioB : List Byte :=
  [0x01, 0x01, 0x00, 0xDE, 0xB4, 0xC0, 0xF9, 0x90, 0xFA, 0x02, 0x02, 0x01, 0x06, 0xC9]

/-- The sample packet of the comment above `evt.NewExtendedAdvertisingReport`. -/
def samplePacket : List Byte :=
  [0x0d, 0x01, 0x10, 0x00, 0x01, 0x87, 0xe8, 0xdb, 0x97, 0x13, 0x75, 0x01, 0x00,
   0xff, 0x7f, 0xde, 0x00, 0x00, 0x00, 0x00, 0x00, 0x00, 0x00, 0x00, 0x00, 0x1b,
   0x02, 0x01, 0x1a, 0x17, 0xff, 0x4c, 0x00, 0x09, 0x08, 0x13, 0x01, 0xc0, 0xa8,
   0x00, 0x03, 0x1b, 0x58, 0x16, 0x08, 0x00, 0x4e, 0x6e, 0xe9, 0x0b, 0x53, 0x48,
   0xdf]

/-- An input of two records for `evt.NewExtendedAdvertisingReport`: all zero
but for the report count, a mark `0x11` at offset 26 and a mark `0x22` at
offset 28. -/
def twoRecordPacket : List Byte :=
  [0x0d, 0x02] ++ List.replicate 24 0 ++ [0x11, 0x00, 0x22] ++ List.replicate 25 0

/-! ## The columnar encoding of the legacy report, as the specification words it -/

/-- One legacy report as the specification lists it: event-type byte,
address-type byte, 6-byte address, AD payload, RSSI byte. -/
structure LegacyReport where
  eventType : Byte
  addressType : Byte
  address : List Byte
  data : List Byte
  rssi : Byte

/-- The columnar body `[subevent, n, n event-types, n address-types,
n addresses, n data-lengths, the n data blocks, n RSSI bytes]`. -/
def encodeColumnar (subevent : Byte) (rs : List LegacyReport) : List Byte :=
  [subevent, byteOf rs.length]
    ++ rs.map (fun r => r.eventType)
    ++ rs.map (fun r => r.addressType)
    ++ rs.flatMap (fun r => r.address)
    ++ rs.map (fun r => byteOf r.data.length)
    ++ rs.flatMap (fun r => r.data)
    ++ rs.map (fun r => r.rssi)

/-! ## The size a legacy report body declares -/

/-- The sum of the first `k` data-length bytes of a body with `n` reports (the
bytes at offsets `2+8n .. 2+8n+k`), a missing byte counting as 0. -/
def declaredDataLength (e : List Byte) (n : Nat) : Nat → Nat
  | 0 => 0
  | k + 1 => declaredDataLength e n k + (e.getD (2 + 8 * n + k) 0).val

/-- The number of bytes the columnar layout needs for the report count `e[1]`
and the data lengths the body declares: the 2 header bytes, 9 bytes of
fixed-width columns per report, the data blocks, one RSSI byte per report. -/
def declaredSize (e : List Byte) : Nat :=
  2 + 9 * (e.getD 1 0).val + declaredDataLength e (e.getD 1 0).val (e.getD 1 0).val
    + (e.getD 1 0).val

/-! ## Auxiliary definitions for the extended-report parser of package `hci` -/

namespace hci

/-- The record literal that the loop body of `newLEExtendedAdvertisingReport`
builds for a record starting at `offset`, with every read written as a total
read; it is the value of the literal when the reads are in range. -/
def recordAt (data : List Byte) (offset : Nat) : ExtendedAdvertisingData :=
  { eventType := le16 (data.getD offset 0) (data.getD (offset + 1) 0)
    addressType := data.getD (offset + 2) 0
    address := (data.take (offset + 9)).drop (offset + 3)
    primaryPHY := data.getD (offset + 9) 0
    secondaryPHY := data.getD (offset + 10) 0
    advertisingSID := data.getD (offset + 11) 0
    txPower := toInt8 (data.getD (offset + 12) 0)
    rssi := toInt8 (data.getD (offset + 13) 0)
    periodicAdvertisingInterval := le16 (data.getD (offset + 14) 0) (data.getD (offset + 15) 0)
    directAddressType := data.getD (offset + 16) 0
    directAddress := (data.take (offset + 22)).drop (offset + 19)
    dataLength := data.getD (offset + 23) 0
    data := (data.take (offset + 24 + (data.getD (offset + 23) 0).val)).drop (offset + 24)
    scanResp := some ExtendedAdvertisingData.zero
    p := none }

/-- Truncation as the specification words it: walking `k` records
sequentially from `offset`, some record has its 24-byte prefix, or the payload
its prefix byte 23 declares, extending past the end of `data`. -/
def truncatedWalk (data : List Byte) : Nat → Nat → Bool
  | 0, _ => false
  | k + 1, offset =>
    decide (data.length < offset + 24)
      || decide (data.length < offset + 24 + (data.getD (offset + 23) 0).val)
      || truncatedWalk data k (offset + 24 + (data.getD (offset + 23) 0).val)

end hci

/-! ## The extended report on the wire, as the specification words it -/

/-- One extended-report record on the wire: the fields of its 24-byte header
in order, and its payload. -/
structure WireRecord where
  eventTypeLo : Byte
  eventTypeHi : Byte
  addressType : Byte
  address : List Byte
  primaryPHY : Byte
  secondaryPHY : Byte
  advertisingSID : Byte
  txPower : Byte
  rssi : Byte
  intervalLo : Byte
  intervalHi : Byte
  directAddressType : Byte
  directAddress : List Byte
  payload : List Byte

/-- The 24-byte header of a record: `[event_type_lo, event_type_hi,
address_type, 6 address bytes, primary_phy, secondary_phy, advertising_sid,
tx_power, rssi, interval_lo, interval_hi, direct_address_type, 6 direct-address
bytes, data_length]`. -/
def WireRecord.header (w : WireRecord) : List Byte :=
  [w.eventTypeLo, w.eventTypeHi, w.addressType] ++ w.address
    ++ [w.primaryPHY, w.secondaryPHY, w.advertisingSID, w.txPower, w.rssi,
        w.intervalLo, w.intervalHi, w.directAddressType]
    ++ w.directAddress ++ [byteOf w.payload.length]

/-- A record on the wire: its header, then its payload. -/
def WireRecord.encode (w : WireRecord) : List Byte := w.header ++ w.payload

/-- The event body `[subevent, n]` followed by the `n` records in order. -/
def encodeExtended (subevent : Byte) (ws : List WireRecord) : List Byte :=
  [subevent, byteOf ws.length] ++ ws.flatMap WireRecord.encode

/-- A parsed record carries the fields of the wire record `w` (all but the
direct address). -/
def matchesWire (r : hci.ExtendedAdvertisingData) (w : WireRecord) : Prop :=
  r.eventType = w.eventTypeLo.val ||| (w.eventTypeHi.val <<< 8) ∧
  r.addressType = w.addressType ∧
  r.address = w.address ∧
  r.primaryPHY = w.primaryPHY ∧
  r.secondaryPHY = w.secondaryPHY ∧
  r.advertisingSID = w.advertisingSID ∧
  r.txPower = toInt8 w.txPower ∧
  r.rssi = toInt8 w.rssi ∧
  r.periodicAdvertisingInterval = w.intervalLo.val ||| (w.intervalHi.val <<< 8) ∧
  r.directAddressType = w.directAddressType ∧
  r.dataLength.val = w.payload.length ∧
  r.data = w.payload

/-! ## `evt.CommandComplete` and `evt.NumberOfCompletedPackets` -/

/-- Go library function `binary.LittleEndian.Uint16(b)`: `_ = b[1]`, then
`uint16(b[0]) | uint16(b[1])<<8`; `none` is the index-out-of-range panic. -/
def littleEndianUint16 (b : List Byte) : Option Nat := do
  let _ ← index b 1
  let b0 ← index b 0
  let b1 ← index b 1
  pure (le16 b0 b1)

namespace evt

/-- `func (e CommandComplete) NumHCICommandPackets() uint8 { return e[0] }` -/
def CommandComplete.NumHCICommandPackets (e : List Byte) : Option Byte := index e 0

/-- `CommandOpcode()` is `binary.LittleEndian.Uint16(e[1:])`. -/
def CommandComplete.CommandOpcode (e : List Byte) : Option Nat := do
  let b ← sliceFrom e 1
  littleEndianUint16 b

/-- `func (e CommandComplete) ReturnParameters() []byte { return e[3:] }` -/
def CommandComplete.ReturnParameters (e : List Byte) : Option (List Byte) :=
  sliceFrom e 3

/-- `func (e NumberOfCompletedPackets) NumberOfHandles() uint8 { return e[0] }` -/
def NumberOfCompletedPackets.NumberOfHandles (e : List Byte) : Option Byte := index e 0

/-- `ConnectionHandle(i)` is `binary.LittleEndian.Uint16(e[1+i*4:])`. -/
def NumberOfCompletedPackets.ConnectionHandle (e : List Byte) (i : Nat) : Option Nat := do
  let b ← sliceFrom e (1 + i * 4)
  littleEndianUint16 b

/-- `HCNumOfCompletedPackets(i)` is `binary.LittleEndian.Uint16(e[1+i*4+2:])`. -/
def NumberOfCompletedPackets.HCNumOfCompletedPackets (e : List Byte) (i : Nat) :
    Option Nat := do
  let b ← sliceFrom e (1 + i * 4 + 2)
  littleEndianUint16 b

end evt

/-- The four bytes of one (handle, completed) pair of 16-bit values:
`handle_lo, handle_hi, pkts_lo, pkts_hi`. -/
def encodeHandlePair (p : Nat × Nat) : List Byte :=
  [byteOf (p.1 % 256), byteOf (p.1 / 256), byteOf (p.2 % 256), byteOf (p.2 / 256)]

/-- The body `[count, (handle_lo, handle_hi, pkts_lo, pkts_hi) × count]`. -/
def encodeCompletedPackets (hs : List (Nat × Nat)) : List Byte :=
  [byteOf hs.length] ++ hs.flatMap encodeHandlePair

/-- The packet of the comment above `NumberOfHandles`: `02, 40 00, 01 00, 41 00, 01 00`. -/
def completedPacketsSample : List Byte :=
  [0x02, 0x40, 0x00, 0x01, 0x00, 0x41, 0x00, 0x01, 0x00]

/-! ## Event types, `Connectable`, `ScanResponse`, `Addr` of package `hci` -/

namespace hci

/-- `evtTypExtendedAdvInd`: ADV_IND (Connectable and Scannable Undirected Advertising) -/
def evtTypExtendedAdvInd : Nat := 0b00100011

/-- `evtTypExtendedAdvDirectInd`: ADV_DIRECT_IND (Connectable Directed Advertising) -/
def evtTypExtendedAdvDirectInd : Nat := 0b00100101

/-- `evtTypExtendedAdvScanInd`: ADV_SCAN_IND (Scannable Undirected Advertising) -/
def evtTypExtendedAdvScanInd : Nat := 0b00100100

/-- `evtTypExtendedAdvNonConnInd`: ADV_NONCONN_IND (Non-Connectable Undirected Advertising) -/
def evtTypExtendedAdvNonConnInd : Nat := 0b00100000

/-- `evtTypScanRspToExtendedAdvInd`: SCAN_RSP to ADV_IND -/
def evtTypScanRspToExtendedAdvInd : Nat := 0b00101111

/-- `evtTypScanRspToExtendedAdvScanInd`: SCAN_RSP to ADV_SCAN_IND -/
def evtTypScanRspToExtendedAdvScanInd : Nat := 0b00101110

/-- Modelled from the spec: the legacy constant `evtTypAdvInd` of package `hci`
is declared in a file that is not among the sources; its value is 0x00
(connectable undirected advertising, ADV_IND). -/
def evtTypAdvInd : Nat := 0x00

/-- Modelled from the spec: the legacy constant `evtTypAdvDirectInd` of package
`hci` is declared in a file that is not among the sources; its value is 0x01
(connectable directed advertising, ADV_DIRECT_IND). -/
def evtTypAdvDirectInd : Nat := 0x01

/-- `Connectable()`:
`return a.eventType == evtTypAdvDirectInd || a.eventType == evtTypAdvInd`. -/
def ExtendedAdvertisingData.Connectable (a : ExtendedAdvertisingData) : Bool :=
  a.eventType == evtTypAdvDirectInd || a.eventType == evtTypAdvInd

/-- `ScanResponse()`: nil when `a.scanResp == nil`, else `a.scanResp.Data()`;
a nil slice is the empty list. -/
def ExtendedAdvertisingData.ScanResponse (a : ExtendedAdvertisingData) : List Byte :=
  match a.scanResp with
  | none => []
  | some s => s.Data

/-- Modelled from the spec: the `ble.Addr` values `Addr()` returns; the types
`net.HardwareAddr` and `RandomAddress` (a wrapper of package `hci`) are
declared outside the sources. `hardware b` is the plain `net.HardwareAddr`,
`random b` is `RandomAddress{addr}`. -/
inductive Addr where
  | hardware (b : List Byte)
  | random (b : List Byte)
  deriving DecidableEq, Repr

/-- `Addr()`: builds `[]byte{a.address[5], a.address[4], a.address[3],
a.address[2], a.address[1], a.address[0]}` and wraps it as `RandomAddress` when
`a.addressType == 1`; `none` is the index-out-of-range panic. -/
def ExtendedAdvertisingData.Addr (a : ExtendedAdvertisingData) : Option Addr := do
  let a5 ← index a.address 5
  let a4 ← index a.address 4
  let a3 ← index a.address 3
  let a2 ← index a.address 2
  let a1 ← index a.address 1
  let a0 ← index a.address 0
  let addr := [a5, a4, a3, a2, a1, a0]
  if a.addressType = 1 then pure (Addr.random addr) else pure (Addr.hardware addr)

end hci

/-- The sample packet of the comment above `hci.newLEExtendedAdvertisingReport`. -/
def hciSamplePacket : List Byte :=
  [0x0d, 0x01, 0x10, 0x00, 0x01, 0xde, 0xb4, 0xc0, 0xf9, 0x90, 0xfa, 0x01, 0x00,
   0xff, 0x7f, 0xdb, 0x00, 0x00, 0x00, 0x00, 0x00, 0x00, 0x00, 0x00, 0x00, 0x08,
   0x07, 0xff, 0x4c, 0x00, 0x12, 0x02, 0x00, 0x03]

/-- An event of one record whose Direct_Address field (header offsets 17..22,
bytes 19..24 of the event) is `01 02 03 04 05 06`, with a 2-byte payload. -/
def directedPacket : List Byte :=
  [0x0d, 0x01, 0x15, 0x00, 0x00, 0xde, 0xb4, 0xc0, 0xf9, 0x90, 0xfa, 0x01, 0x00,
   0xff, 0x7f, 0xdb, 0x00, 0x00, 0x01, 0x01, 0x02, 0x03, 0x04, 0x05, 0x06, 0x02,
   0xaa, 0xbb]

/-! ## The transport socket -/

namespace socket

/-- Modelled from the spec: the `Socket` of package `linux/hci/socket` is not
among the sources (only its test is). Its `closed` channel is open or closed;
`released` counts the releases of the underlying OS resource. -/
structure Socket where
  closed : Bool
  released : Nat
  deriving DecidableEq, Repr

/-- Modelled from the spec: `IsClosed()` of the absent `Socket`: true exactly
when the `closed` channel has been closed (the liveness flag of the transport). -/
def Socket.IsClosed (s : Socket) : Bool := s.closed

/-- Modelled from the spec: `Close()` of the absent `Socket`: closing an
already-closed transport is a no-op success; otherwise it closes the `closed`
channel, releases the OS resource once and returns the outcome `releaseErr` of
that release (`none` is the nil error). -/
def Socket.Close (releaseErr : Option String) (s : Socket) : Socket × Option String :=
  if s.IsClosed then (s, none)
  else ({ closed := true, released := s.released + 1 }, releaseErr)

/-- The socket after `n` further calls of `Close()`, and whether all of them
returned the nil error. -/
def closeRepeatedly (releaseErr : Option String) : Nat → Socket → Socket × Bool
  | 0, s => (s, true)
  | n + 1, s =>
    let r := Socket.Close releaseErr s
    let rest := closeRepeatedly releaseErr n r.1
    (rest.1, r.2.isNone && rest.2)

end socket

/-! ## Slices over the array that backs the event buffer -/

namespace mem

/-- A Go slice header into the array backing the event buffer: the index
`off` of its first element in the array, its `len` and its `cap`. -/
structure Slice where
  off : Nat
  len : Nat
  cap : Nat
  deriving DecidableEq, Repr

/-- The bytes a slice header denotes in the array `arr`. -/
def Slice.bytes (arr : List Byte) (s : Slice) : List Byte := (arr.drop s.off).take s.len

/-- The header of the Go slice expression `data[lo:hi]`, where `data` starts
at index 0 of the array and has capacity `cap`: it starts at `lo`, has length
`hi - lo` and capacity `cap - lo`. -/
def sliceHeader (cap lo hi : Nat) : Slice := { off := lo, len := hi - lo, cap := cap - lo }

/-- Go built-in `append(b, xs...)` on a slice of the array `arr`: when
`len(b) + len(xs) <= cap(b)` the elements are written in place after `b`, in
the same array; otherwise a new array is allocated and `arr` is left as it is.
Returns the array afterwards and the bytes of the resulting slice. -/
def append (arr : List Byte) (b : Slice) (xs : List Byte) : List Byte × List Byte :=
  if b.len + xs.length ≤ b.cap then
    (arr.take (b.off + b.len) ++ xs ++ arr.drop (b.off + b.len + xs.length),
      b.bytes arr ++ xs)
  else
    (arr, b.bytes arr ++ xs)

end mem

namespace hci

/-- The header of `address: data[offset+3 : offset+9]` for the record at `offset`. -/
def addressHeader (cap offset : Nat) : mem.Slice :=
  mem.sliceHeader cap (offset + 3) (offset + 9)

/-- The header of `r.data = data[offset+reportDataStaticLength : dataEnd]` for the
record at `offset`, `dataEnd` being `offset + 24 + int(r.dataLength)`. -/
def dataHeader (data : List Byte) (cap offset : Nat) : mem.Slice :=
  mem.sliceHeader cap (offset + reportDataStaticLength)
    (offset + reportDataStaticLength + (data.getD (offset + 23) 0).val)

/-- `packets()` with no cached packet, over the array `arr` that backs the event:
`b := a.data; if a.scanResp != nil { b = append(b, a.scanResp.data...) }`.
`aData` is the header of `a.data`, `scanResp` the bytes of `a.scanResp.data` when
`a.scanResp` is not nil. Returns the array afterwards and the buffer `b` handed
to `adv.NewRawPacket`. -/
def packetsOver (arr : List Byte) (aData : mem.Slice) (scanResp : Option (List Byte)) :
    List Byte × List Byte :=
  match scanResp with
  | some s => mem.append arr aData s
  | none => (arr, aData.bytes arr)

end hci

/-- A first record on the wire: address `de b4 c0 f9 90 fa`, payload `02 01 06`. -/
def wireA : WireRecord :=
  ⟨0x10, 0x00, 0x01, [0xde, 0xb4, 0xc0, 0xf9, 0x90, 0xfa], 0x01, 0x00, 0xff, 0x7f,
   0xdb, 0x00, 0x00, 0x00, [0, 0, 0, 0, 0, 0], [0x02, 0x01, 0x06]⟩

/-- A second record on the wire: address `87 e8 db 97 13 75`, payload `02 0a 04`. -/
def wireB : WireRecord :=
  ⟨0x13, 0x00, 0x00, [0x87, 0xe8, 0xdb, 0x97, 0x13, 0x75], 0x01, 0x01, 0x02, 0x00,
   0xc9, 0x20, 0x03, 0x00, [0, 0, 0, 0, 0, 0], [0x02, 0x0a, 0x04]⟩

/-- An event buffer of the two records `wireA`, `wireB`, in this order; the first
starts at offset 2, the second at offset 29. -/
def twoRecordEvent : List Byte := encodeExtended 0x0d [wireA, wireB]

/-- The payload of a scan response: the AD field "complete local name" `abcd`. -/
def scanRespPayload : List Byte := [0x05, 0x09, 0x61, 0x62, 0x63, 0x64]

/-! ## Theorems -/

/-! ### Reading bytes and slices -/

theorem byteOf_val {n : Nat} (h : n ≤ 255) : (byteOf n).val = n := by
  simp only [byteOf]; omega

theorem index_append_skip (pre l : List Byte) (k : Nat) :
    index (pre ++ l) (pre.length + k) = index l k := by
  simp [index, List.getElem?_append_right]

theorem index_append_keep (l post : List Byte) (k : Nat) (h : k < l.length) :
    index (l ++ post) k = index l k := by
  simp [index, List.getElem?_append_left h]

theorem index_isSome_iff (e : List Byte) (k : Nat) :
    (index e k).isSome = true ↔ k < e.length := by
  simp only [index]
  constructor
  · intro h
    by_contra hk
    rw [List.getElem?_eq_none (by omega)] at h
    simp at h
  · intro h
    rw [List.getElem?_eq_getElem h]; rfl

theorem copy6_of_le (src : List Byte) (h : 6 ≤ src.length) : copy6 src = src.take 6 := by
  simp [copy6, List.length_take, h]

/-! ### C2: the four fixed-width columns -/

theorem fixed_columns_read (e : List Byte) (n : Byte) (i : Nat)
    (hn : evt.LEAdvertisingReport.NumReports e = some n)
    (hlen : 2 + 9 * n.val ≤ e.length) (hi : i < n.val) :
    (evt.LEAdvertisingReport.EventType e i = e[2 + i]? ∧ e[2 + i]?.isSome = true) ∧
    (evt.LEAdvertisingReport.AddressType e i = e[2 + n.val + i]? ∧
      e[2 + n.val + i]?.isSome = true) ∧
    (evt.LEAdvertisingReport.Address e i
        = some ((e.drop (2 + 2 * n.val + 6 * i)).take 6) ∧
      ((e.drop (2 + 2 * n.val + 6 * i)).take 6).length = 6) ∧
    (evt.LEAdvertisingReport.LengthData e i = e[2 + 8 * n.val + i]? ∧
      e[2 + 8 * n.val + i]?.isSome = true) := by
  have some_of_lt : ∀ k, k < e.length → e[k]?.isSome = true := fun k hk =>
    (index_isSome_iff e k).2 hk
  refine ⟨⟨rfl, some_of_lt _ (by omega)⟩, ⟨?_, some_of_lt _ (by omega)⟩, ⟨?_, ?_⟩,
    ⟨?_, some_of_lt _ (by omega)⟩⟩
  · simp [evt.LEAdvertisingReport.AddressType, hn, index]
  · have h1 : 2 + n.val * 2 ≤ e.length := by omega
    have h2 : 6 * i ≤ (e.drop (2 + n.val * 2)).length := by
      rw [List.length_drop]; omega
    have h3 : 6 ≤ ((e.drop (2 + n.val * 2)).drop (6 * i)).length := by
      rw [List.length_drop, List.length_drop]; omega
    simp only [evt.LEAdvertisingReport.Address, hn, sliceFrom, h1, h2, if_true,
      Option.bind_eq_bind, Option.some_bind, Option.pure_def, copy6_of_le _ h3]
    rw [List.drop_drop]
    have : 2 + n.val * 2 + 6 * i = 2 + 2 * n.val + 6 * i := by omega
    rw [this]
  · rw [List.length_take, List.length_drop]; omega
  · simp [evt.LEAdvertisingReport.LengthData, hn, index, Nat.mul_comm]

/-- C2: with `n = NumReports() = e[1]`, `len(e) >= 2 + 9n` and `i < n`, no accessor
panics and `EventType(i) = e[2+i]`, `AddressType(i) = e[2+n+i]`, `Address(i)` is
the six bytes `e[2+2n+6i .. 2+2n+6i+6)` in wire order, `LengthData(i) = e[2+8n+i]`. -/
theorem legacy_fixed_columns (e : List Byte) (n : Byte) (i : Nat)
    (hn : evt.LEAdvertisingReport.NumReports e = some n)
    (hlen : 2 + 9 * n.val ≤ e.length) (hi : i < n.val) :
    (evt.LEAdvertisingReport.EventType e i = e[2 + i]? ∧ e[2 + i]?.isSome = true) ∧
    (evt.LEAdvertisingReport.AddressType e i = e[2 + n.val + i]? ∧
      e[2 + n.val + i]?.isSome = true) ∧
    (evt.LEAdvertisingReport.Address e i
        = some ((e.drop (2 + 2 * n.val + 6 * i)).take 6) ∧
      ((e.drop (2 + 2 * n.val + 6 * i)).take 6).length = 6) ∧
    (evt.LEAdvertisingReport.LengthData e i = e[2 + 8 * n.val + i]? ∧
      e[2 + 8 * n.val + i]?.isSome = true) :=
  fixed_columns_read e n i hn hlen hi

/-- Witness for C2 on the scenario B body. -/
theorem legacy_fixed_columns_witness :
    (evt.LEAdvertisingReport.EventType scenarioB 0 = scenarioB[2 + 0]? ∧
      scenarioB[2 + 0]?.isSome = true) ∧
    (evt.LEAdvertisingReport.AddressType scenarioB 0 = scenarioB[2 + (1 : Byte).val + 0]? ∧
      scenarioB[2 + (1 : Byte).val + 0]?.isSome = true) ∧
    (evt.LEAdvertisingReport.Address scenarioB 0
        = some ((scenarioB.drop (2 + 2 * (1 : Byte).val + 6 * 0)).take 6) ∧
      ((scenarioB.drop (2 + 2 * (1 : Byte).val + 6 * 0)).take 6).length = 6) ∧
    (evt.LEAdvertisingReport.LengthData scenarioB 0 = scenarioB[2 + 8 * (1 : Byte).val + 0]? ∧
      scenarioB[2 + 8 * (1 : Byte).val + 0]?.isSome = true) :=
  legacy_fixed_columns scenarioB 1 0 (by decide) (by decide) (by decide)

/-! ### C1: decoding the columnar encoding -/

theorem flatMap_address_length (rs : List LegacyReport)
    (h : ∀ r ∈ rs, r.address.length = 6) :
    (rs.flatMap (fun r => r.address)).length = 6 * rs.length := by
  induction rs with
  | nil => rfl
  | cons a t ih =>
    have ha := h a (List.mem_cons_self a t)
    have ht := ih (fun r hr => h r (List.mem_cons_of_mem a hr))
    simp only [List.flatMap_cons, List.length_append, List.length_cons, ha, ht]
    omega

theorem encodeColumnar_split8 (sub : Byte) (rs : List LegacyReport)
    (h : ∀ r ∈ rs, r.address.length = 6) :
    ∃ pre : List Byte, pre.length = 2 + 8 * rs.length ∧
      encodeColumnar sub rs = pre ++ (rs.map (fun r => byteOf r.data.length)
        ++ (rs.flatMap (fun r => r.data) ++ rs.map (fun r => r.rssi))) := by
  refine ⟨[sub, byteOf rs.length] ++ rs.map (fun r => r.eventType)
    ++ rs.map (fun r => r.addressType) ++ rs.flatMap (fun r => r.address), ?_, ?_⟩
  · simp only [List.length_append, List.length_map, flatMap_address_length rs h,
      List.length_cons, List.length_nil]
    omega
  · simp only [encodeColumnar, List.append_assoc]

theorem encodeColumnar_split9 (sub : Byte) (rs : List LegacyReport)
    (h : ∀ r ∈ rs, r.address.length = 6) :
    ∃ pre : List Byte, pre.length = 2 + 9 * rs.length ∧
      encodeColumnar sub rs
        = pre ++ (rs.flatMap (fun r => r.data) ++ rs.map (fun r => r.rssi)) := by
  obtain ⟨pre, hpre, hE⟩ := encodeColumnar_split8 sub rs h
  refine ⟨pre ++ rs.map (fun r => byteOf r.data.length), ?_, ?_⟩
  · simp only [List.length_append, List.length_map, hpre]
    omega
  · simp only [hE, List.append_assoc]

theorem encodeColumnar_numReports (sub : Byte) (rs : List LegacyReport) :
    evt.LEAdvertisingReport.NumReports (encodeColumnar sub rs) = some (byteOf rs.length) := by
  simp [evt.LEAdvertisingReport.NumReports, encodeColumnar, index]

theorem encodeColumnar_lengthData (sub : Byte) (rs : List LegacyReport)
    (hn : rs.length ≤ 255) (h : ∀ r ∈ rs, r.address.length = 6)
    (j : Nat) (r : LegacyReport) (hj : rs[j]? = some r) :
    evt.LEAdvertisingReport.LengthData (encodeColumnar sub rs) j
      = some (byteOf r.data.length) := by
  obtain ⟨pre, hpre, hE⟩ := encodeColumnar_split8 sub rs h
  have hjn : j < rs.length := by
    by_contra hc
    rw [List.getElem?_eq_none (by omega)] at hj
    exact Option.noConfusion hj
  simp only [evt.LEAdvertisingReport.LengthData, encodeColumnar_numReports,
    Option.bind_eq_bind, Option.some_bind, byteOf_val hn]
  have hoff : 2 + rs.length * 8 + j = pre.length + j := by omega
  rw [hE, hoff, index_append_skip, index_append_keep _ _ _ (by simpa using hjn)]
  simp [index, List.getElem?_map, hj]

theorem encodeColumnar_lengthLoop (sub : Byte) (rs : List LegacyReport)
    (hn : rs.length ≤ 255)
    (h : ∀ r ∈ rs, r.address.length = 6 ∧ r.data.length ≤ 255) :
    ∀ k, k ≤ rs.length →
      evt.LEAdvertisingReport.lengthLoop (encodeColumnar sub rs) k
        = some ((rs.take k).flatMap (fun r => r.data)).length := by
  intro k
  induction k with
  | zero => intro _; rfl
  | succ k ih =>
    intro hk
    have hlt : k < rs.length := by omega
    have hget : rs[k]? = some rs[k] := List.getElem?_eq_getElem hlt
    have hmem : rs[k] ∈ rs := List.getElem_mem hlt
    have hd := encodeColumnar_lengthData sub rs hn (fun r hr => (h r hr).1) k rs[k] hget
    simp only [evt.LEAdvertisingReport.lengthLoop, ih (by omega), hd,
      Option.bind_eq_bind, Option.some_bind, Option.pure_def,
      byteOf_val (h _ hmem).2, List.take_succ, hget, Option.toList_some,
      List.flatMap_append, List.flatMap_cons, List.flatMap_nil, List.length_append,
      List.append_nil]

/-- C1: on the columnar encoding of `n <= 255` reports (6-byte addresses,
payloads of at most 255 bytes), `Data(i)` is exactly the AD payload of report
`i` and `RSSI(i)` is its RSSI byte read as a signed 8-bit value, for every
position `i` of the list. -/
theorem columnar_data_rssi (sub : Byte) (rs : List LegacyReport)
    (hn : rs.length ≤ 255)
    (h : ∀ r ∈ rs, r.address.length = 6 ∧ r.data.length ≤ 255)
    (i : Nat) (r : LegacyReport) (hi : rs[i]? = some r) :
    evt.LEAdvertisingReport.Data (encodeColumnar sub rs) i = some r.data ∧
    evt.LEAdvertisingReport.RSSI (encodeColumnar sub rs) i = some (toInt8 r.rssi) := by
  have haddr : ∀ r ∈ rs, r.address.length = 6 := fun r hr => (h r hr).1
  obtain ⟨pre, hpre, hE⟩ := encodeColumnar_split9 sub rs haddr
  have hin : i < rs.length := by
    by_contra hc
    rw [List.getElem?_eq_none (by omega)] at hi
    exact Option.noConfusion hi
  have hri : rs[i] = r := by
    rw [List.getElem?_eq_getElem hin] at hi
    exact Option.some.inj hi
  have hmem : r ∈ rs := hri ▸ List.getElem_mem hin
  have hsplit : rs = rs.take i ++ r :: rs.drop (i + 1) := by
    rw [← hri, List.getElem_cons_drop rs i hin, List.take_append_drop]
  have hdata : rs.flatMap (fun r => r.data)
      = (rs.take i).flatMap (fun r => r.data)
        ++ (r.data ++ (rs.drop (i + 1)).flatMap (fun r => r.data)) := by
    conv_lhs => rw [hsplit]
    simp only [List.flatMap_append, List.flatMap_cons]
  constructor
  · simp only [evt.LEAdvertisingReport.Data, encodeColumnar_lengthLoop sub rs hn h i
        (by omega), encodeColumnar_numReports,
      encodeColumnar_lengthData sub rs hn haddr i r hi,
      Option.bind_eq_bind, Option.some_bind, byteOf_val hn, byteOf_val (h r hmem).2]
    have hoff : 2 + rs.length * 9 + ((rs.take i).flatMap (fun r => r.data)).length
        = (pre ++ (rs.take i).flatMap (fun r => r.data)).length := by
      rw [List.length_append]; omega
    have hE2 : encodeColumnar sub rs
        = (pre ++ (rs.take i).flatMap (fun r => r.data))
          ++ (r.data ++ ((rs.drop (i + 1)).flatMap (fun r => r.data)
            ++ rs.map (fun r => r.rssi))) := by
      rw [hE, hdata]; simp only [List.append_assoc]
    rw [hoff]
    conv_lhs => rw [hE2]
    simp [sliceFrom, sliceTo]
  · have hloop := encodeColumnar_lengthLoop sub rs hn h rs.length (le_refl _)
    rw [List.take_length] at hloop
    simp only [evt.LEAdvertisingReport.RSSI, encodeColumnar_numReports,
      Option.bind_eq_bind, Option.some_bind, byteOf_val hn, hloop]
    have hoff : 2 + rs.length * 9 + (rs.flatMap (fun r => r.data)).length + i
        = (pre ++ rs.flatMap (fun r => r.data)).length + i := by
      rw [List.length_append]; omega
    have hE2 : encodeColumnar sub rs
        = (pre ++ rs.flatMap (fun r => r.data)) ++ rs.map (fun r => r.rssi) := by
      rw [hE]; simp only [List.append_assoc]
    rw [hoff, hE2, index_append_skip]
    simp [index, List.getElem?_map, hi]

/-- Witness for C1: two reports, the second read back. -/
theorem columnar_data_rssi_witness :
    evt.LEAdvertisingReport.Data
        (encodeColumnar 0x02
          [⟨0x00, 0x01, [1, 2, 3, 4, 5, 6], [0x02, 0x01, 0x06], 0xC9⟩,
           ⟨0x04, 0x00, [7, 8, 9, 10, 11, 12], [0x05, 0x09, 0x61, 0x62, 0x63, 0x64], 0xB0⟩]) 1
      = some [0x05, 0x09, 0x61, 0x62, 0x63, 0x64] ∧
    evt.LEAdvertisingReport.RSSI
        (encodeColumnar 0x02
          [⟨0x00, 0x01, [1, 2, 3, 4, 5, 6], [0x02, 0x01, 0x06], 0xC9⟩,
           ⟨0x04, 0x00, [7, 8, 9, 10, 11, 12], [0x05, 0x09, 0x61, 0x62, 0x63, 0x64], 0xB0⟩]) 1
      = some (toInt8 0xB0) :=
  columnar_data_rssi 0x02 _ (by decide) (by decide) 1
    ⟨0x04, 0x00, [7, 8, 9, 10, 11, 12], [0x05, 0x09, 0x61, 0x62, 0x63, 0x64], 0xB0⟩ rfl

/-! ### C5: when the legacy accessors stay in bounds -/

theorem index_eq_getD (e : List Byte) (k : Nat) (h : k < e.length) :
    index e k = some (e.getD k 0) := by
  simp [index, List.getD_eq_getElem?_getD, List.getElem?_eq_getElem h]

theorem declaredDataLength_mono (e : List Byte) (n k m : Nat) (h : k ≤ m) :
    declaredDataLength e n k ≤ declaredDataLength e n m := by
  induction m with
  | zero =>
    have : k = 0 := by omega
    subst this; exact le_refl _
  | succ m ih =>
    rcases Nat.eq_or_lt_of_le h with h1 | h1
    · subst h1; exact le_refl _
    · have := ih (by omega)
      simp only [declaredDataLength]
      omega

theorem lengthData_of_size (e : List Byte) (n : Byte) (j : Nat)
    (hn : evt.LEAdvertisingReport.NumReports e = some n)
    (hlen : 2 + 9 * n.val ≤ e.length) (hj : j < n.val) :
    evt.LEAdvertisingReport.LengthData e j = some (e.getD (2 + 8 * n.val + j) 0) := by
  simp only [evt.LEAdvertisingReport.LengthData, hn, Option.bind_eq_bind, Option.some_bind]
  have : 2 + n.val * 8 + j = 2 + 8 * n.val + j := by omega
  rw [this, index_eq_getD e _ (by omega)]

theorem lengthLoop_of_size (e : List Byte) (n : Byte)
    (hn : evt.LEAdvertisingReport.NumReports e = some n)
    (hlen : 2 + 9 * n.val ≤ e.length) :
    ∀ k, k ≤ n.val →
      evt.LEAdvertisingReport.lengthLoop e k = some (declaredDataLength e n.val k) := by
  intro k
  induction k with
  | zero => intro _; rfl
  | succ k ih =>
    intro hk
    simp only [evt.LEAdvertisingReport.lengthLoop, ih (by omega),
      lengthData_of_size e n k hn hlen (by omega), Option.bind_eq_bind, Option.some_bind,
      Option.pure_def, declaredDataLength]

/-- C5 as stated fails: a body of length 2 declaring one report makes
`EventType(0)` index out of range. -/
theorem legacy_accessors_can_panic :
    ¬ ∀ (e : List Byte) (n : Byte) (i : Nat), 2 ≤ e.length →
        evt.LEAdvertisingReport.NumReports e = some n → i < n.val →
        (evt.LEAdvertisingReport.EventType e i).isSome = true ∧
        (evt.LEAdvertisingReport.AddressType e i).isSome = true ∧
        (evt.LEAdvertisingReport.Address e i).isSome = true ∧
        (evt.LEAdvertisingReport.LengthData e i).isSome = true ∧
        (evt.LEAdvertisingReport.Data e i).isSome = true ∧
        (evt.LEAdvertisingReport.RSSI e i).isSome = true := by
  intro h
  have h0 := (h [0x02, 0x01] 1 0 (by decide) (by decide) (by decide)).1
  revert h0
  decide

/-- C5 amended: when the body is at least as long as the size its own report
count and data lengths declare, no accessor indexes or slices outside it, for
every `i < NumReports()`. -/
theorem legacy_accessors_in_bounds (e : List Byte) (n : Byte) (i : Nat)
    (hsize : declaredSize e ≤ e.length)
    (hn : evt.LEAdvertisingReport.NumReports e = some n) (hi : i < n.val) :
    (evt.LEAdvertisingReport.EventType e i).isSome = true ∧
    (evt.LEAdvertisingReport.AddressType e i).isSome = true ∧
    (evt.LEAdvertisingReport.Address e i).isSome = true ∧
    (evt.LEAdvertisingReport.LengthData e i).isSome = true ∧
    (evt.LEAdvertisingReport.Data e i).isSome = true ∧
    (evt.LEAdvertisingReport.RSSI e i).isSome = true := by
  have hn1 : e.getD 1 0 = n := by
    have : e[1]? = some n := hn
    simp [List.getD_eq_getElem?_getD, this]
  simp only [declaredSize, hn1] at hsize
  have hlen : 2 + 9 * n.val ≤ e.length := by omega
  obtain ⟨⟨_, c1⟩, ⟨c2a, c2b⟩, ⟨c3, _⟩, ⟨c4a, c4b⟩⟩ := fixed_columns_read e n i hn hlen hi
  have hmono := declaredDataLength_mono e n.val (i + 1) n.val (by omega)
  simp only [declaredDataLength] at hmono
  refine ⟨c1, by rw [c2a]; exact c2b, by rw [c3]; rfl, by rw [c4a]; exact c4b, ?_, ?_⟩
  · have h1 : 2 + n.val * 9 + declaredDataLength e n.val i ≤ e.length := by omega
    have h2 : (e.getD (2 + 8 * n.val + i) 0).val
        ≤ (e.drop (2 + n.val * 9 + declaredDataLength e n.val i)).length := by
      rw [List.length_drop]; omega
    simp only [evt.LEAdvertisingReport.Data, lengthLoop_of_size e n hn hlen i (by omega), hn,
      lengthData_of_size e n i hn hlen hi, sliceFrom, sliceTo, h1, h2, if_true,
      Option.bind_eq_bind, Option.some_bind, Option.isSome_some]
  · have h1 : 2 + n.val * 9 + declaredDataLength e n.val n.val + i < e.length := by omega
    simp only [evt.LEAdvertisingReport.RSSI, hn,
      lengthLoop_of_size e n hn hlen n.val (le_refl _), index_eq_getD e _ h1,
      Option.bind_eq_bind, Option.some_bind, Option.pure_def, Option.isSome_some]

/-- Witness for the amended C5 on the scenario B body. -/
theorem legacy_accessors_in_bounds_witness :
    (evt.LEAdvertisingReport.EventType scenarioB 0).isSome = true ∧
    (evt.LEAdvertisingReport.AddressType scenarioB 0).isSome = true ∧
    (evt.LEAdvertisingReport.Address scenarioB 0).isSome = true ∧
    (evt.LEAdvertisingReport.LengthData scenarioB 0).isSome = true ∧
    (evt.LEAdvertisingReport.Data scenarioB 0).isSome = true ∧
    (evt.LEAdvertisingReport.RSSI scenarioB 0).isSome = true :=
  legacy_accessors_in_bounds scenarioB 1 0 (by decide) (by decide) (by decide)

/-! ### The loop of `hci.newLEExtendedAdvertisingReport` -/

theorem byteAt_of_lt (data : List Byte) (j : Nat) (h : j < data.length) :
    byteAt data j = .ok (data.getD j 0) := by
  simp only [byteAt, index_eq_getD data j h]

theorem sliceOf_of_le (data : List Byte) (lo hi : Nat) (h1 : lo ≤ hi)
    (h2 : hi ≤ data.length) :
    sliceOf data lo hi = .ok ((data.take hi).drop lo) := by
  simp only [sliceOf, slice, h1, h2, and_self, if_true]

theorem hci_loop_zero (data : List Byte) (i offset : Nat)
    (acc : List hci.ExtendedAdvertisingData) :
    hci.newLEExtendedAdvertisingReport.loop data 0 i offset acc = .ok acc := rfl

theorem hci_loop_short (data : List Byte) (k i offset : Nat)
    (acc : List hci.ExtendedAdvertisingData) (h : data.length < offset + 24) :
    hci.newLEExtendedAdvertisingReport.loop data (k + 1) i offset acc
      = .error (.error (.invalidLengthForReport data.length i)) := by
  simp only [hci.newLEExtendedAdvertisingReport.loop, hci.reportDataStaticLength]
  rw [if_pos (by omega)]

theorem hci_loop_succ (data : List Byte) (k i offset : Nat)
    (acc : List hci.ExtendedAdvertisingData) (h : offset + 24 ≤ data.length) :
    hci.newLEExtendedAdvertisingReport.loop data (k + 1) i offset acc
      = if offset + 24 + (data.getD (offset + 23) 0).val > data.length then
          .error (.error (.invalidDataEnd data.length
            (offset + 24 + (data.getD (offset + 23) 0).val) i))
        else
          hci.newLEExtendedAdvertisingReport.loop data k (i + 1)
            (offset + 24 + (data.getD (offset + 23) 0).val)
            (acc ++ [hci.recordAt data offset]) := by
  simp only [hci.newLEExtendedAdvertisingReport.loop, hci.reportDataStaticLength]
  rw [if_neg (by omega)]
  simp (disch := omega) only [byteAt_of_lt, sliceOf_of_le, bind, Except.bind]
  split
  · rfl
  · rfl

theorem hci_loop_outcome (data : List Byte) :
    ∀ (k i offset : Nat) (acc : List hci.ExtendedAdvertisingData),
      (hci.truncatedWalk data k offset = true →
        ∃ e, hci.newLEExtendedAdvertisingReport.loop data k i offset acc
          = .error (.error e)) ∧
      (hci.truncatedWalk data k offset = false →
        ∃ rs, hci.newLEExtendedAdvertisingReport.loop data k i offset acc
          = .ok (acc ++ rs) ∧ rs.length = k) := by
  intro k
  induction k with
  | zero =>
    intro i offset acc
    refine ⟨fun h => ?_, fun _ => ⟨[], by simp [hci_loop_zero], rfl⟩⟩
    simp [hci.truncatedWalk] at h
  | succ k ih =>
    intro i offset acc
    by_cases h1 : data.length < offset + 24
    · refine ⟨fun _ => ⟨_, hci_loop_short data k i offset acc h1⟩, fun h => ?_⟩
      simp [hci.truncatedWalk, h1] at h
    · have h1' : offset + 24 ≤ data.length := by omega
      rw [hci_loop_succ data k i offset acc h1']
      by_cases h2 : data.length < offset + 24 + (data.getD (offset + 23) 0).val
      · rw [if_pos (by omega)]
        refine ⟨fun _ => ⟨_, rfl⟩, fun h => ?_⟩
        simp [hci.truncatedWalk, h2, -List.getD_eq_getElem?_getD] at h
      · rw [if_neg (by omega)]
        obtain ⟨ihT, ihF⟩ := ih (i + 1) (offset + 24 + (data.getD (offset + 23) 0).val)
          (acc ++ [hci.recordAt data offset])
        constructor
        · intro h
          simp only [hci.truncatedWalk, h1, h2, decide_False, Bool.false_or] at h
          exact ihT h
        · intro h
          simp only [hci.truncatedWalk, h1, h2, decide_False, Bool.false_or] at h
          obtain ⟨rs, hrs, hlen⟩ := ihF h
          refine ⟨hci.recordAt data offset :: rs, ?_, ?_⟩
          · rw [hrs, List.append_assoc]; rfl
          · simp [hlen]

/-- C7: `hci.newLEExtendedAdvertisingReport` never panics on any byte sequence; it
returns an error exactly when `len(data) < 2` or the sequential walk of the
`data[1]` records from offset 2 finds a record whose 24-byte prefix or declared
payload runs past the end; otherwise it returns a report with
`SubeventCode = data[0]`, `NumReports = data[1]` and exactly `data[1]` records. -/
theorem newLEExtendedAdvertisingReport_total (data : List Byte) :
    hci.newLEExtendedAdvertisingReport data ≠ .error .panic ∧
    ((∃ e, hci.newLEExtendedAdvertisingReport data = .error (.error e)) ↔
      (data.length < 2 ∨ hci.truncatedWalk data (data.getD 1 0).val 2 = true)) ∧
    (¬ (data.length < 2 ∨ hci.truncatedWalk data (data.getD 1 0).val 2 = true) →
      ∃ r, hci.newLEExtendedAdvertisingReport data = .ok r ∧
        data[0]? = some r.SubeventCode ∧ data[1]? = some r.NumReports ∧
        r.Reports.length = r.NumReports.val) := by
  by_cases hlen : data.length < 2
  · have hres : hci.newLEExtendedAdvertisingReport data
        = .error (.error .invalidDataLength) := by
      simp only [hci.newLEExtendedAdvertisingReport, hlen, if_true]
    rw [hres]
    exact ⟨by simp, ⟨fun _ => Or.inl hlen, fun _ => ⟨_, rfl⟩⟩, fun h => absurd (Or.inl hlen) h⟩
  · have h0 : 0 < data.length := by omega
    have h1 : 1 < data.length := by omega
    have hres : hci.newLEExtendedAdvertisingReport data
        = (hci.newLEExtendedAdvertisingReport.loop data (data.getD 1 0).val 0 2 []).map
            (fun rs => { SubeventCode := data.getD 0 0, NumReports := data.getD 1 0,
                         Reports := rs }) := by
      simp only [hci.newLEExtendedAdvertisingReport, hlen, if_false,
        byteAt_of_lt data 0 h0, byteAt_of_lt data 1 h1, bind, Except.bind]
      cases hci.newLEExtendedAdvertisingReport.loop data (data.getD 1 0).val 0 2 [] <;> rfl
    obtain ⟨hT, hF⟩ := hci_loop_outcome data (data.getD 1 0).val 0 2 []
    cases hw : hci.truncatedWalk data (data.getD 1 0).val 2 with
    | true =>
      obtain ⟨e, he⟩ := hT hw
      rw [hres, he]
      refine ⟨by simp [Except.map], ⟨fun _ => Or.inr rfl, fun _ => ⟨e, rfl⟩⟩, fun h => ?_⟩
      exact absurd (Or.inr rfl) h
    | false =>
      obtain ⟨rs, hrs, hk⟩ := hF hw
      rw [hres, hrs]
      refine ⟨by simp [Except.map], ⟨fun h => ?_, fun h => ?_⟩, fun _ => ⟨_, rfl, ?_, ?_, ?_⟩⟩
      · obtain ⟨e, he⟩ := h
        simp [Except.map] at he
      · rcases h with h | h
        · exact absurd h hlen
        · exact absurd h (by simp)
      · simp [List.getD_eq_getElem?_getD, List.getElem?_eq_getElem h0]
      · simp [List.getD_eq_getElem?_getD, List.getElem?_eq_getElem h1]
      · simpa using hk

/-! ### C6: round trip over the 24-byte header layout -/

theorem le16_eq (lo hi : Byte) : le16 lo hi = lo.val ||| (hi.val <<< 8) := by
  have h1 : lo.val < 2 ^ 16 := by have := lo.isLt; omega
  have h2 : hi.val <<< 8 < 2 ^ 16 := by
    rw [Nat.shiftLeft_eq]; have := hi.isLt; omega
  have := Nat.or_lt_two_pow h1 h2
  simp only [le16]
  omega

theorem length_eq_six (l : List Byte) (h : l.length = 6) :
    ∃ a b c d e f, l = [a, b, c, d, e, f] := by
  match l, h with
  | [a, b, c, d, e, f], _ => exact ⟨a, b, c, d, e, f, rfl⟩

theorem getD_append_skip (pre l : List Byte) (k : Nat) :
    (pre ++ l).getD (pre.length + k) 0 = l.getD k 0 := by
  simp [List.getD_eq_getElem?_getD, List.getElem?_append_right]

theorem take_drop_append_skip (pre l : List Byte) (a b : Nat) :
    ((pre ++ l).take (pre.length + b)).drop (pre.length + a) = (l.take b).drop a := by
  rw [List.take_append, ← List.length_take_of_le (Nat.le_refl pre.length)]
  simp [List.drop_append]

theorem header_length (w : WireRecord) (ha : w.address.length = 6)
    (hd : w.directAddress.length = 6) : w.header.length = 24 := by
  simp [WireRecord.header, ha, hd]

theorem recordAt_matches (pre rest : List Byte) (w : WireRecord)
    (ha : w.address.length = 6) (hd : w.directAddress.length = 6)
    (hp : w.payload.length ≤ 255) :
    matchesWire (hci.recordAt (pre ++ (w.encode ++ rest)) pre.length) w := by
  have hlen := header_length w ha hd
  have hdata : (hci.recordAt (pre ++ (w.encode ++ rest)) pre.length).data = w.payload := by
    have h23 : (pre ++ (w.encode ++ rest)).getD (pre.length + 23) 0
        = byteOf w.payload.length := by
      obtain ⟨a0, a1, a2, a3, a4, a5, ha'⟩ := length_eq_six _ ha
      obtain ⟨d0, d1, d2, d3, d4, d5, hd'⟩ := length_eq_six _ hd
      rw [getD_append_skip]
      simp [WireRecord.encode, WireRecord.header, ha', hd']
    simp only [hci.recordAt, h23, byteOf_val hp]
    rw [Nat.add_assoc, take_drop_append_skip, WireRecord.encode, List.append_assoc, ← hlen,
      List.take_append, List.drop_left]
    simp
  obtain ⟨a0, a1, a2, a3, a4, a5, ha'⟩ := length_eq_six _ ha
  obtain ⟨d0, d1, d2, d3, d4, d5, hd'⟩ := length_eq_six _ hd
  refine ⟨?_, ?_, ?_, ?_, ?_, ?_, ?_, ?_, ?_, ?_, ?_, hdata⟩
  all_goals
    simp only [hci.recordAt, getD_append_skip, take_drop_append_skip, le16_eq]
    try rw [← Nat.add_zero pre.length, getD_append_skip]
    simp [WireRecord.encode, WireRecord.header, ha', hd', byteOf_val hp]

theorem hci_loop_roundtrip (rest : List Byte) :
    ∀ (ws : List WireRecord),
      (∀ w ∈ ws, w.address.length = 6 ∧ w.directAddress.length = 6 ∧
        w.payload.length ≤ 255) →
      ∀ (pre : List Byte) (i : Nat) (acc : List hci.ExtendedAdvertisingData),
        ∃ rs, hci.newLEExtendedAdvertisingReport.loop
              (pre ++ (ws.flatMap WireRecord.encode ++ rest)) ws.length i pre.length acc
            = .ok (acc ++ rs) ∧ List.Forall₂ matchesWire rs ws := by
  intro ws
  induction ws with
  | nil =>
    intro _ pre i acc
    exact ⟨[], by simp [hci_loop_zero], List.Forall₂.nil⟩
  | cons w t ih =>
    intro hwf pre i acc
    obtain ⟨ha, hd, hp⟩ := hwf w (List.mem_cons_self w t)
    have hlen := header_length w ha hd
    have hdata : pre ++ ((w :: t).flatMap WireRecord.encode ++ rest)
        = pre ++ (w.encode ++ (t.flatMap WireRecord.encode ++ rest)) := by
      simp only [List.flatMap_cons, List.append_assoc]
    have hdata' : pre ++ (w.encode ++ (t.flatMap WireRecord.encode ++ rest))
        = (pre ++ w.encode) ++ (t.flatMap WireRecord.encode ++ rest) := by
      simp only [List.append_assoc]
    have henc : w.encode.length = 24 + w.payload.length := by
      simp only [WireRecord.encode, List.length_append, hlen]
    have hm := recordAt_matches pre (t.flatMap WireRecord.encode ++ rest) w ha hd hp
    have h23 : (pre ++ (w.encode ++ (t.flatMap WireRecord.encode ++ rest))).getD
        (pre.length + 23) 0 = byteOf w.payload.length := by
      have := hm.2.2.2.2.2.2.2.2.2.2.1
      simp only [hci.recordAt] at this
      exact Fin.ext (by rw [this, byteOf_val hp])
    have hfit : pre.length + 24 + w.payload.length
        ≤ (pre ++ (w.encode ++ (t.flatMap WireRecord.encode ++ rest))).length := by
      simp only [List.length_append, henc]; omega
    rw [hdata, List.length_cons, hci_loop_succ _ _ _ _ _ (by omega), h23, byteOf_val hp,
      if_neg (by omega)]
    have hoff : pre.length + 24 + w.payload.length = (pre ++ w.encode).length := by
      simp only [List.length_append, henc]; omega
    obtain ⟨rs, hrs, hall⟩ := ih (fun x hx => hwf x (List.mem_cons_of_mem w hx))
      (pre ++ w.encode) (i + 1)
      (acc ++ [hci.recordAt (pre ++ (w.encode ++ (t.flatMap WireRecord.encode ++ rest)))
        pre.length])
    rw [← hdata'] at hrs
    rw [hoff]
    refine ⟨_ :: rs, ?_, List.Forall₂.cons hm hall⟩
    rw [hrs, List.append_assoc]; rfl

/-- C6: on the encoding `[subevent, n]` followed by `n <= 255` records, each a
24-byte header and its payload (6-byte addresses, payload of at most 255
bytes), `hci.newLEExtendedAdvertisingReport` succeeds with `SubeventCode`,
`NumReports = n` and exactly the `n` records in order, each carrying the event
type `lo | hi<<8`, address type, address, PHYs, SID, signed TX power and RSSI,
interval `lo | hi<<8`, direct address type, data length and payload of its
wire record. -/
theorem extended_roundtrip (sub : Byte) (ws : List WireRecord)
    (hn : ws.length ≤ 255)
    (hwf : ∀ w ∈ ws, w.address.length = 6 ∧ w.directAddress.length = 6 ∧
      w.payload.length ≤ 255) :
    ∃ rs, hci.newLEExtendedAdvertisingReport (encodeExtended sub ws)
        = .ok { SubeventCode := sub, NumReports := byteOf ws.length, Reports := rs } ∧
      (byteOf ws.length).val = ws.length ∧ rs.length = ws.length ∧
      List.Forall₂ matchesWire rs ws := by
  obtain ⟨rs, hrs, hall⟩ := hci_loop_roundtrip [] ws hwf [sub, byteOf ws.length] 0 []
  refine ⟨rs, ?_, byteOf_val hn, hall.length_eq, hall⟩
  have hE : encodeExtended sub ws
      = [sub, byteOf ws.length] ++ (ws.flatMap WireRecord.encode ++ []) := by
    simp only [encodeExtended, List.append_nil]
  have hlen : ¬ (encodeExtended sub ws).length < 2 := by
    simp [encodeExtended]
  have h0 : byteAt (encodeExtended sub ws) 0 = .ok sub := by
    simp [byteAt, index, encodeExtended]
  have h1 : byteAt (encodeExtended sub ws) 1 = .ok (byteOf ws.length) := by
    simp [byteAt, index, encodeExtended]
  simp only [hci.newLEExtendedAdvertisingReport, hlen, if_false, h0, h1, bind, Except.bind,
    byteOf_val hn]
  rw [hE]
  have hrs' : hci.newLEExtendedAdvertisingReport.loop
      ([sub, byteOf ws.length] ++ (ws.flatMap WireRecord.encode ++ [])) ws.length 0 2 []
      = .ok rs := by
    simpa using hrs
  rw [hrs']
  rfl

/-- Witness for C6: two records, the first with a 3-byte payload, the second
with an empty one. -/
theorem extended_roundtrip_witness :
    ∃ rs, hci.newLEExtendedAdvertisingReport (encodeExtended 0x0d
          [⟨0x10, 0x00, 0x01, [0xde, 0xb4, 0xc0, 0xf9, 0x90, 0xfa], 0x01, 0x00, 0xff, 0x7f,
            0xdb, 0x00, 0x00, 0x00, [1, 2, 3, 4, 5, 6], [0x02, 0x01, 0x06]⟩,
           ⟨0x13, 0x00, 0x00, [0x87, 0xe8, 0xdb, 0x97, 0x13, 0x75], 0x01, 0x01, 0x02, 0x00,
            0xc9, 0x20, 0x03, 0x01, [6, 5, 4, 3, 2, 1], []⟩])
        = .ok { SubeventCode := 0x0d, NumReports := byteOf 2, Reports := rs } ∧
      (byteOf 2).val = 2 ∧ rs.length = 2 ∧
      List.Forall₂ matchesWire rs
          [⟨0x10, 0x00, 0x01, [0xde, 0xb4, 0xc0, 0xf9, 0x90, 0xfa], 0x01, 0x00, 0xff, 0x7f,
            0xdb, 0x00, 0x00, 0x00, [1, 2, 3, 4, 5, 6], [0x02, 0x01, 0x06]⟩,
           ⟨0x13, 0x00, 0x00, [0x87, 0xe8, 0xdb, 0x97, 0x13, 0x75], 0x01, 0x01, 0x02, 0x00,
            0xc9, 0x20, 0x03, 0x01, [6, 5, 4, 3, 2, 1], []⟩] :=
  extended_roundtrip 0x0d _ (by decide) (by decide)

/-! ### C10: the buffer handed to the AD decoder -/

theorem hci_loop_fresh (data : List Byte) :
    ∀ (k i offset : Nat) (acc rs : List hci.ExtendedAdvertisingData),
      hci.newLEExtendedAdvertisingReport.loop data k i offset acc = .ok rs →
      ∃ new, rs = acc ++ new ∧
        ∀ a ∈ new, a.p = none ∧ a.scanResp = some hci.ExtendedAdvertisingData.zero := by
  intro k
  induction k with
  | zero =>
    intro i offset acc rs h
    rw [hci_loop_zero] at h
    exact ⟨[], by simpa using (Except.ok.inj h).symm, by simp⟩
  | succ k ih =>
    intro i offset acc rs h
    by_cases h1 : data.length < offset + 24
    · rw [hci_loop_short data k i offset acc h1] at h
      exact Except.noConfusion h
    · rw [hci_loop_succ data k i offset acc (by omega)] at h
      split at h
      · exact Except.noConfusion h
      · obtain ⟨new, hnew, hall⟩ := ih _ _ _ _ h
        refine ⟨hci.recordAt data offset :: new, by rw [hnew, List.append_assoc]; rfl, ?_⟩
        intro a ha
        rcases List.mem_cons.1 ha with rfl | ha
        · exact ⟨rfl, rfl⟩
        · exact hall a ha

theorem parsed_records_fresh (data : List Byte) (r : hci.LEExtendedAdvertisingReport)
    (h : hci.newLEExtendedAdvertisingReport data = .ok r) :
    ∀ a ∈ r.Reports, a.p = none ∧ a.scanResp = some hci.ExtendedAdvertisingData.zero := by
  simp only [hci.newLEExtendedAdvertisingReport] at h
  split at h
  · exact Except.noConfusion h
  · cases h0 : byteAt data 0 with
    | error e => simp [h0, bind, Except.bind] at h
    | ok b0 =>
      cases h1 : byteAt data 1 with
      | error e => simp [h0, h1, bind, Except.bind] at h
      | ok b1 =>
        cases hl : hci.newLEExtendedAdvertisingReport.loop data b1.val 0 2 [] with
        | error e => simp [h0, h1, hl, bind, Except.bind] at h
        | ok rs =>
          simp only [h0, h1, hl, bind, Except.bind, pure, Except.pure] at h
          obtain ⟨new, hnew, hall⟩ := hci_loop_fresh data _ _ _ _ _ hl
          have hr : r.Reports = rs := by rw [← Except.ok.inj h]
          rw [hr, hnew, List.nil_append]
          exact hall

/-- C10: with no cached packet (`p` is nil, as for every record the parser
builds), after `a.SetScanResp(s)` the buffer `packets()` hands to
`adv.NewRawPacket` is `a.data ++ s.data`, primary bytes first; with `scanResp`
nil or the empty placeholder it is `a.data` alone, which is the case for every
record `newLEExtendedAdvertisingReport` returns. -/
theorem packets_buffer (NewRawPacket : List Byte → adv.Packet)
    (a s : hci.ExtendedAdvertisingData) (hp : a.p = none) :
    (a.SetScanResp s).packets NewRawPacket = NewRawPacket (a.data ++ s.data) ∧
    (a.data ++ s.data).length = a.data.length + s.data.length ∧
    (a.data ++ s.data).take a.data.length = a.data ∧
    (a.scanResp = none ∨ a.scanResp = some hci.ExtendedAdvertisingData.zero →
      a.packets NewRawPacket = NewRawPacket a.data) ∧
    (∀ data r, hci.newLEExtendedAdvertisingReport data = .ok r →
      ∀ x ∈ r.Reports, x.packets NewRawPacket = NewRawPacket x.data) := by
  refine ⟨?_, List.length_append _ _, List.take_left _ _, ?_, ?_⟩
  · simp only [hci.ExtendedAdvertisingData.packets, hci.ExtendedAdvertisingData.SetScanResp, hp]
  · intro h
    rcases h with h | h
    · simp only [hci.ExtendedAdvertisingData.packets, hp, h]
    · simp only [hci.ExtendedAdvertisingData.packets, hp, h,
        hci.ExtendedAdvertisingData.zero, List.append_nil]
  · intro data r hr x hx
    obtain ⟨hxp, hxs⟩ := parsed_records_fresh data r hr x hx
    simp only [hci.ExtendedAdvertisingData.packets, hxp, hxs,
      hci.ExtendedAdvertisingData.zero, List.append_nil]

/-- Witness for C10: a primary payload carrying flags, a scan response
carrying the name `ab`. -/
theorem packets_buffer_witness :
    (({ hci.ExtendedAdvertisingData.zero with data := [0x02, 0x01, 0x06] }
        : hci.ExtendedAdvertisingData).SetScanResp
      { hci.ExtendedAdvertisingData.zero with data := [0x03, 0x09, 0x61, 0x62] }).packets
        adv.Packet.mk
      = adv.Packet.mk [0x02, 0x01, 0x06, 0x03, 0x09, 0x61, 0x62] :=
  (packets_buffer adv.Packet.mk
    { hci.ExtendedAdvertisingData.zero with data := [0x02, 0x01, 0x06] }
    { hci.ExtendedAdvertisingData.zero with data := [0x03, 0x09, 0x61, 0x62] } rfl).1

/-! ### C12: the `CommandComplete` body -/

theorem le16_eq_add (lo hi : Byte) : le16 lo hi = lo.val + 256 * hi.val := by
  have h := Nat.mul_add_lt_is_or (show lo.val < 2 ^ 8 from lo.isLt) hi.val
  rw [le16_eq, Nat.shiftLeft_eq, Nat.lor_comm, Nat.mul_comm]
  omega

theorem uint16_cons_cons (b0 b1 : Byte) (rest : List Byte) :
    littleEndianUint16 (b0 :: b1 :: rest) = some (b0.val + 256 * b1.val) := by
  simp [littleEndianUint16, index, le16_eq_add]

/-- C12: on `e = [num_packets, opcode_lo, opcode_hi] ++ return_params`,
`NumHCICommandPackets() = num_packets`, `CommandOpcode() = opcode_lo + 256 * opcode_hi`
and `ReturnParameters() = return_params`, for every opcode and every (possibly
empty) parameter sequence; no accessor panics. -/
theorem commandComplete_fields (num lo hi : Byte) (params : List Byte) :
    evt.CommandComplete.NumHCICommandPackets ([num, lo, hi] ++ params) = some num ∧
    evt.CommandComplete.CommandOpcode ([num, lo, hi] ++ params)
      = some (lo.val + 256 * hi.val) ∧
    lo.val + 256 * hi.val < 65536 ∧
    evt.CommandComplete.ReturnParameters ([num, lo, hi] ++ params) = some params := by
  refine ⟨rfl, ?_, by have := lo.isLt; have := hi.isLt; omega, ?_⟩
  · simp [evt.CommandComplete.CommandOpcode, sliceFrom, uint16_cons_cons]
  · simp [evt.CommandComplete.ReturnParameters, sliceFrom]

/-! ### C11: the 4-byte stride of `NumberOfCompletedPackets` -/

theorem flatMap_handlePair_length (hs : List (Nat × Nat)) :
    (hs.flatMap encodeHandlePair).length = 4 * hs.length := by
  induction hs with
  | nil => rfl
  | cons a t ih =>
    simp only [List.flatMap_cons, List.length_append, List.length_cons, ih, encodeHandlePair,
      List.length_nil]
    omega

theorem sliceFrom_append_skip (pre l : List Byte) (k : Nat) (hk : k ≤ l.length) :
    sliceFrom (pre ++ l) (pre.length + k) = some (l.drop k) := by
  simp only [sliceFrom, List.length_append, List.drop_append]
  rw [if_pos (by omega)]

theorem byteOf_pair (h : Nat) (hh : h < 65536) :
    (byteOf (h % 256)).val + 256 * (byteOf (h / 256)).val = h := by
  rw [byteOf_val (by omega), byteOf_val (by omega)]
  omega

/-- C11: on `e = [count, (handle_lo, handle_hi, pkts_lo, pkts_hi) × count]` for any
list of `count <= 255` pairs of 16-bit values, `NumberOfHandles() = count`,
`ConnectionHandle(i)` is the handle and `HCNumOfCompletedPackets(i)` the count of
pair `i`, with no read out of range; on the packet of the code comment the
handles are 0x0040 and 0x0041, each with count 1. -/
theorem completedPackets_stride (hs : List (Nat × Nat)) (hn : hs.length ≤ 255)
    (hwf : ∀ p ∈ hs, p.1 < 65536 ∧ p.2 < 65536)
    (i : Nat) (p : Nat × Nat) (hi : hs[i]? = some p) :
    (evt.NumberOfCompletedPackets.NumberOfHandles (encodeCompletedPackets hs)
        = some (byteOf hs.length) ∧ (byteOf hs.length).val = hs.length) ∧
    evt.NumberOfCompletedPackets.ConnectionHandle (encodeCompletedPackets hs) i = some p.1 ∧
    evt.NumberOfCompletedPackets.HCNumOfCompletedPackets (encodeCompletedPackets hs) i
      = some p.2 ∧
    encodeCompletedPackets [(0x0040, 1), (0x0041, 1)] = completedPacketsSample := by
  have hin : i < hs.length := by
    by_contra hc
    rw [List.getElem?_eq_none (by omega)] at hi
    exact Option.noConfusion hi
  have hpi : hs[i] = p := by
    rw [List.getElem?_eq_getElem hin] at hi
    exact Option.some.inj hi
  have hmem : p ∈ hs := hpi ▸ List.getElem_mem hin
  have hsplit : hs = hs.take i ++ p :: hs.drop (i + 1) := by
    rw [← hpi, List.getElem_cons_drop hs i hin, List.take_append_drop]
  have hE : encodeCompletedPackets hs
      = ([byteOf hs.length] ++ (hs.take i).flatMap encodeHandlePair)
        ++ (encodeHandlePair p ++ (hs.drop (i + 1)).flatMap encodeHandlePair) := by
    conv_lhs => rw [encodeCompletedPackets, hsplit]
    simp only [List.flatMap_append, List.flatMap_cons, List.append_assoc, List.length_append,
      List.length_take, List.length_cons, List.length_drop]
    congr 3
    omega
  have hpre : ([byteOf hs.length] ++ (hs.take i).flatMap encodeHandlePair).length
      = 1 + i * 4 := by
    rw [List.length_append, flatMap_handlePair_length, List.length_take]
    simp only [List.length_cons, List.length_nil]
    omega
  obtain ⟨h1, h2⟩ := hwf p hmem
  refine ⟨⟨by simp [evt.NumberOfCompletedPackets.NumberOfHandles, encodeCompletedPackets,
    index], byteOf_val hn⟩, ?_, ?_, by decide⟩
  · have := sliceFrom_append_skip
      ([byteOf hs.length] ++ (hs.take i).flatMap encodeHandlePair)
      (encodeHandlePair p ++ (hs.drop (i + 1)).flatMap encodeHandlePair) 0 (Nat.zero_le _)
    rw [hpre, ← hE] at this
    simp only [evt.NumberOfCompletedPackets.ConnectionHandle, Nat.add_zero] at this ⊢
    rw [this]
    simp only [List.drop_zero, encodeHandlePair, List.cons_append, Option.bind_eq_bind,
      Option.some_bind, uint16_cons_cons, byteOf_pair p.1 h1]
  · have := sliceFrom_append_skip
      ([byteOf hs.length] ++ (hs.take i).flatMap encodeHandlePair)
      (encodeHandlePair p ++ (hs.drop (i + 1)).flatMap encodeHandlePair) 2
      (by simp [encodeHandlePair])
    rw [hpre, ← hE] at this
    simp only [evt.NumberOfCompletedPackets.HCNumOfCompletedPackets] at this ⊢
    rw [this]
    simp only [encodeHandlePair, List.cons_append, List.drop_succ_cons, List.drop_zero,
      Option.bind_eq_bind, Option.some_bind, uint16_cons_cons, byteOf_pair p.2 h2]

/-- Witness for C11: the packet of the code comment, second pair. -/
theorem completedPackets_stride_witness :
    (evt.NumberOfCompletedPackets.NumberOfHandles completedPacketsSample = some 2 ∧
      ((2 : Byte).val = 2)) ∧
    evt.NumberOfCompletedPackets.ConnectionHandle completedPacketsSample 1 = some 0x0041 ∧
    evt.NumberOfCompletedPackets.HCNumOfCompletedPackets completedPacketsSample 1 = some 1 ∧
    encodeCompletedPackets [(0x0040, 1), (0x0041, 1)] = completedPacketsSample :=
  completedPackets_stride [(0x0040, 1), (0x0041, 1)] (by decide) (by decide) 1 (0x0041, 1) rfl

/-! ### Records returned by `hci.newLEExtendedAdvertisingReport` -/

theorem hci_parse_ok_loop (data : List Byte) (r : hci.LEExtendedAdvertisingReport)
    (h : hci.newLEExtendedAdvertisingReport data = .ok r) :
    2 ≤ data.length ∧
    hci.newLEExtendedAdvertisingReport.loop data (data.getD 1 0).val 0 2 [] = .ok r.Reports := by
  by_cases hlen : data.length < 2
  · simp only [hci.newLEExtendedAdvertisingReport, hlen, if_true] at h
    exact Except.noConfusion h
  · refine ⟨by omega, ?_⟩
    simp only [hci.newLEExtendedAdvertisingReport, hlen, if_false,
      byteAt_of_lt data 0 (by omega), byteAt_of_lt data 1 (by omega), bind, Except.bind] at h
    cases hl : hci.newLEExtendedAdvertisingReport.loop data (data.getD 1 0).val 0 2 [] with
    | error e =>
      rw [hl] at h
      exact Except.noConfusion h
    | ok rs =>
      rw [hl] at h
      have hr : r.Reports = rs := by rw [← Except.ok.inj h]
      rw [hr]

theorem hci_loop_records (data : List Byte) :
    ∀ (k i offset : Nat) (acc rs : List hci.ExtendedAdvertisingData),
      hci.newLEExtendedAdvertisingReport.loop data k i offset acc = .ok rs →
      ∃ new, rs = acc ++ new ∧
        ∀ a ∈ new, ∃ o, offset ≤ o ∧
          o + 24 + (data.getD (o + 23) 0).val ≤ data.length ∧ a = hci.recordAt data o := by
  intro k
  induction k with
  | zero =>
    intro i offset acc rs h
    rw [hci_loop_zero] at h
    exact ⟨[], by simpa using (Except.ok.inj h).symm, by simp⟩
  | succ k ih =>
    intro i offset acc rs h
    by_cases h1 : data.length < offset + 24
    · rw [hci_loop_short data k i offset acc h1] at h
      exact Except.noConfusion h
    · rw [hci_loop_succ data k i offset acc (by omega)] at h
      split at h
      · exact Except.noConfusion h
      · obtain ⟨new, hnew, hall⟩ := ih _ _ _ _ h
        refine ⟨hci.recordAt data offset :: new, by rw [hnew, List.append_assoc]; rfl, ?_⟩
        intro a ha
        rcases List.mem_cons.1 ha with rfl | ha
        · exact ⟨offset, Nat.le_refl _, by omega, rfl⟩
        · obtain ⟨o, ho, hfit, hrec⟩ := hall a ha
          exact ⟨o, by omega, hfit, hrec⟩

theorem parsed_records_at (data : List Byte) (r : hci.LEExtendedAdvertisingReport)
    (h : hci.newLEExtendedAdvertisingReport data = .ok r) :
    ∀ a ∈ r.Reports, ∃ o, 2 ≤ o ∧
      o + 24 + (data.getD (o + 23) 0).val ≤ data.length ∧ a = hci.recordAt data o := by
  obtain ⟨_, hl⟩ := hci_parse_ok_loop data r h
  obtain ⟨new, hnew, hall⟩ := hci_loop_records data _ _ _ _ _ hl
  rw [hnew, List.nil_append]
  exact hall

theorem take_drop_length (data : List Byte) (lo hi : Nat) (h1 : lo ≤ hi)
    (h2 : hi ≤ data.length) : ((data.take hi).drop lo).length = hi - lo := by
  rw [List.length_drop, List.length_take]
  omega

/-! ### C13: `Connectable` -/

/-- C13: what `Connectable()` computes: it compares the 16-bit event type with the
legacy constants, so it is true exactly for the event types 0x00 and 0x01, and
false for every extended event type this file defines, the two connectable ones
(`evtTypExtendedAdvInd`, `evtTypExtendedAdvDirectInd`) included. -/
theorem connectable_false_on_extended_types :
    ({ hci.ExtendedAdvertisingData.zero with eventType := hci.evtTypExtendedAdvInd }
        : hci.ExtendedAdvertisingData).Connectable = false ∧
    ({ hci.ExtendedAdvertisingData.zero with eventType := hci.evtTypExtendedAdvDirectInd }
        : hci.ExtendedAdvertisingData).Connectable = false ∧
    ({ hci.ExtendedAdvertisingData.zero with eventType := hci.evtTypExtendedAdvScanInd }
        : hci.ExtendedAdvertisingData).Connectable = false ∧
    ({ hci.ExtendedAdvertisingData.zero with eventType := hci.evtTypExtendedAdvNonConnInd }
        : hci.ExtendedAdvertisingData).Connectable = false ∧
    (∀ a : hci.ExtendedAdvertisingData,
      a.Connectable = true ↔ a.eventType = 0x01 ∨ a.eventType = 0x00) := by
  refine ⟨by decide, by decide, by decide, by decide, ?_⟩
  intro a
  simp [hci.ExtendedAdvertisingData.Connectable, hci.evtTypAdvDirectInd, hci.evtTypAdvInd]

/-! ### C14: closing the transport socket -/

theorem close_closed (releaseErr : Option String) (s : socket.Socket)
    (h : s.IsClosed = true) : socket.Socket.Close releaseErr s = (s, none) := by
  simp only [socket.Socket.Close, h, if_true]

theorem closeRepeatedly_closed (releaseErr : Option String) (n : Nat) (s : socket.Socket)
    (h : s.IsClosed = true) : socket.closeRepeatedly releaseErr n s = (s, true) := by
  induction n with
  | zero => rfl
  | succ n ih => simp [socket.closeRepeatedly, close_closed releaseErr s h, ih]

/-- C14: `IsClosed()` is false while the `closed` channel is open and true once it
is closed; `Close()` on an already-closed socket returns no error, releases
nothing a second time and leaves `IsClosed()` true, for any number of repeated
calls; the same holds after the first `Close()` of an open socket. -/
theorem socket_close_idempotent (releaseErr : Option String) (s : socket.Socket)
    (n : Nat) :
    (s.IsClosed = true ↔ s.closed = true) ∧
    (s.IsClosed = true →
      socket.Socket.Close releaseErr s = (s, none) ∧
      socket.closeRepeatedly releaseErr n s = (s, true) ∧
      (socket.closeRepeatedly releaseErr n s).1.IsClosed = true ∧
      (socket.closeRepeatedly releaseErr n s).1.released = s.released) ∧
    ((socket.Socket.Close releaseErr s).1.IsClosed = true ∧
      socket.closeRepeatedly releaseErr n (socket.Socket.Close releaseErr s).1
        = ((socket.Socket.Close releaseErr s).1, true)) := by
  have hc : (socket.Socket.Close releaseErr s).1.IsClosed = true := by
    cases hs : s.IsClosed with
    | true => rw [close_closed releaseErr s hs]; exact hs
    | false => simp only [socket.Socket.Close, hs, Bool.false_eq_true, if_false]; rfl
  refine ⟨Iff.rfl, fun h => ?_, hc, closeRepeatedly_closed releaseErr n _ hc⟩
  have hr := closeRepeatedly_closed releaseErr n s h
  exact ⟨close_closed releaseErr s h, hr, by rw [hr]; exact h, by rw [hr]⟩

/-- Witness for C14: a closed socket, closed three more times. -/
theorem socket_close_idempotent_witness :
    socket.Socket.Close (some "EBADF") { closed := true, released := 1 }
      = ({ closed := true, released := 1 }, none) ∧
    socket.closeRepeatedly (some "EBADF") 3 { closed := true, released := 1 }
      = ({ closed := true, released := 1 }, true) :=
  ⟨((socket_close_idempotent (some "EBADF") { closed := true, released := 1 } 3).2.1 rfl).1,
   ((socket_close_idempotent (some "EBADF") { closed := true, released := 1 } 3).2.1 rfl).2.1⟩

/-! ### C15: the direct address -/

/-- C15: what the parser stores as `directAddress`: the slice
`data[offset+19 : offset+22]`, three bytes (header offsets 19..21), for every
record of every accepted input; on an event whose Direct_Address field is
`01 02 03 04 05 06` the record carries `03 04 05`. -/
theorem directAddress_is_three_bytes :
    (∀ data r, hci.newLEExtendedAdvertisingReport data = .ok r →
      ∀ a ∈ r.Reports, a.directAddress.length = 3) ∧
    slice directedPacket (2 + 17) (2 + 23) = some [0x01, 0x02, 0x03, 0x04, 0x05, 0x06] ∧
    (hci.newLEExtendedAdvertisingReport directedPacket).toOption.map
        (fun r => r.Reports.map (fun a => (a.directAddressType, a.directAddress, a.data)))
      = some [(0x01, [0x03, 0x04, 0x05], [0xaa, 0xbb])] := by
  refine ⟨?_, by decide, by decide⟩
  intro data r h a ha
  obtain ⟨o, _, hfit, rfl⟩ := parsed_records_at data r h a ha
  simp only [hci.recordAt]
  rw [take_drop_length data _ _ (by omega) (by omega)]
  omega

/-! ### C16: `ScanResponse` and `SetScanResp` -/

/-- C16: after `a.SetScanResp(d)`, `a.ScanResponse()` is `d.Data()` and `a.Data()`,
`a.EventType()`, `a.RSSI()`, the address and the address type are unchanged; with
`scanResp` nil `ScanResponse()` is nil (the empty slice); and for every record
returned by `newLEExtendedAdvertisingReport` `ScanResponse()` is empty. -/
theorem scanResponse_frame (a d : hci.ExtendedAdvertisingData) :
    (a.SetScanResp d).ScanResponse = d.Data ∧
    (a.SetScanResp d).Data = a.Data ∧
    (a.SetScanResp d).EventType = a.EventType ∧
    (a.SetScanResp d).RSSI = a.RSSI ∧
    (a.SetScanResp d).address = a.address ∧
    (a.SetScanResp d).addressType = a.addressType ∧
    (a.scanResp = none → a.ScanResponse = []) ∧
    (∀ data r, hci.newLEExtendedAdvertisingReport data = .ok r →
      ∀ x ∈ r.Reports, x.ScanResponse = []) := by
  refine ⟨rfl, rfl, rfl, rfl, rfl, rfl, ?_, ?_⟩
  · intro h
    simp only [hci.ExtendedAdvertisingData.ScanResponse, h]
  · intro data r hr x hx
    obtain ⟨_, hxs⟩ := parsed_records_fresh data r hr x hx
    simp only [hci.ExtendedAdvertisingData.ScanResponse, hxs]
    rfl

/-- Witness for C16: the record of the sample packet has an empty scan response. -/
theorem scanResponse_frame_witness :
    (hci.recordAt hciSamplePacket 2).ScanResponse = [] :=
  (scanResponse_frame hci.ExtendedAdvertisingData.zero hci.ExtendedAdvertisingData.zero).2.2.2.2.2.2.2
    hciSamplePacket
    { SubeventCode := 0x0d, NumReports := 0x01, Reports := [hci.recordAt hciSamplePacket 2] }
    rfl (hci.recordAt hciSamplePacket 2) (List.mem_singleton.2 rfl)

/-! ### C17: `Addr` -/

theorem addr_of_six (a : hci.ExtendedAdvertisingData) (h : a.address.length = 6) :
    a.Addr = some (if a.addressType = 1 then hci.Addr.random a.address.reverse
      else hci.Addr.hardware a.address.reverse) := by
  obtain ⟨a0, a1, a2, a3, a4, a5, ha⟩ := length_eq_six _ h
  by_cases ht : a.addressType = 1 <;>
    simp [hci.ExtendedAdvertisingData.Addr, ha, index, ht]

/-- C17: every record `a` returned by `newLEExtendedAdvertisingReport` has a 6-byte
`address`, so `Addr()` does not panic; its bytes are the wire bytes reversed
(byte `k` is `a.address[5-k]`), reversing them again gives the wire bytes, and
the result is a `RandomAddress` exactly when `addressType == 1`. -/
theorem addr_reverses_wire_address (data : List Byte)
    (r : hci.LEExtendedAdvertisingReport)
    (h : hci.newLEExtendedAdvertisingReport data = .ok r)
    (a : hci.ExtendedAdvertisingData) (ha : a ∈ r.Reports) :
    a.address.length = 6 ∧
    a.Addr = some (if a.addressType = 1 then hci.Addr.random a.address.reverse
      else hci.Addr.hardware a.address.reverse) ∧
    (∀ k, k < 6 → a.address.reverse[k]? = a.address[5 - k]?) ∧
    a.address.reverse.reverse = a.address ∧
    ((∃ b, a.Addr = some (hci.Addr.random b)) ↔ a.addressType = 1) := by
  obtain ⟨o, _, hfit, hrec⟩ := parsed_records_at data r h a ha
  have hlen : a.address.length = 6 := by
    rw [hrec]
    simp only [hci.recordAt]
    rw [take_drop_length data _ _ (by omega) (by omega)]
    omega
  have haddr := addr_of_six a hlen
  refine ⟨hlen, haddr, ?_, List.reverse_reverse _, ?_⟩
  · intro k hk
    rw [List.getElem?_reverse (by omega), hlen]
  · rw [haddr]
    constructor
    · rintro ⟨b, hb⟩
      by_contra hne
      rw [if_neg hne] at hb
      exact hci.Addr.noConfusion (Option.some.inj hb)
    · intro h1
      exact ⟨_, by rw [if_pos h1]⟩

/-- Witness for C17: the record of the sample packet, wire address
`de b4 c0 f9 90 fa` with address type 1, gives the random address
`fa:90:f9:c0:b4:de`. -/
theorem addr_reverses_wire_address_witness :
    (hci.recordAt hciSamplePacket 2).address = [0xde, 0xb4, 0xc0, 0xf9, 0x90, 0xfa] ∧
    (hci.recordAt hciSamplePacket 2).addressType = 1 ∧
    (hci.recordAt hciSamplePacket 2).Addr
      = some (hci.Addr.random [0xfa, 0x90, 0xf9, 0xc0, 0xb4, 0xde]) :=
  ⟨by decide, by decide,
   (addr_reverses_wire_address hciSamplePacket
      { SubeventCode := 0x0d, NumReports := 0x01, Reports := [hci.recordAt hciSamplePacket 2] }
      rfl (hci.recordAt hciSamplePacket 2) (List.mem_singleton.2 rfl)).2.1⟩

/-! ### C18: `packets` and the event buffer -/

theorem dataHeader_bytes (data : List Byte) (cap o : Nat) :
    (hci.dataHeader data cap o).bytes data = (hci.recordAt data o).data := by
  simp only [hci.dataHeader, mem.sliceHeader, mem.Slice.bytes, hci.recordAt,
    hci.reportDataStaticLength, List.take_drop]
  congr 2
  omega

theorem addressHeader_bytes (data : List Byte) (cap o : Nat) :
    (hci.addressHeader cap o).bytes data = (hci.recordAt data o).address := by
  simp only [hci.addressHeader, mem.sliceHeader, mem.Slice.bytes, hci.recordAt,
    List.take_drop]
  congr 2
  omega

/-- C18: `packets()` writes into the event buffer. The headers of `a.data` and
`address` denote the parsed fields; on the event of two records (capacity equal
to its length), `packets()` on the first record with a 6-byte scan response
appends in place, since `a.data` has spare capacity up to the end of the
buffer: the handed buffer is `a.data ++ s.data`, `a.data` itself keeps its
bytes, but the buffer is changed and the address of the second record, read
through its slice, turns from `87 e8 db 97 13 75` into `62 63 64 97 13 75`. -/
theorem packets_overwrites_next_record :
    (∀ data cap o, (hci.dataHeader data cap o).bytes data = (hci.recordAt data o).data) ∧
    (∀ data cap o, (hci.addressHeader cap o).bytes data = (hci.recordAt data o).address) ∧
    (hci.newLEExtendedAdvertisingReport twoRecordEvent).toOption.map
        (fun r => r.Reports.map (fun a => (a.address, a.data)))
      = some [((hci.recordAt twoRecordEvent 2).address, (hci.recordAt twoRecordEvent 2).data),
              ((hci.recordAt twoRecordEvent 29).address,
               (hci.recordAt twoRecordEvent 29).data)] ∧
    twoRecordEvent.length = 56 ∧
    hci.dataHeader twoRecordEvent 56 2 = { off := 26, len := 3, cap := 30 } ∧
    (hci.addressHeader 56 29).bytes twoRecordEvent = [0x87, 0xe8, 0xdb, 0x97, 0x13, 0x75] ∧
    (hci.packetsOver twoRecordEvent (hci.dataHeader twoRecordEvent 56 2)
        (some scanRespPayload)).2
      = [0x02, 0x01, 0x06] ++ scanRespPayload ∧
    (hci.packetsOver twoRecordEvent (hci.dataHeader twoRecordEvent 56 2)
        (some scanRespPayload)).1 ≠ twoRecordEvent ∧
    (hci.dataHeader twoRecordEvent 56 2).bytes
        (hci.packetsOver twoRecordEvent (hci.dataHeader twoRecordEvent 56 2)
          (some scanRespPayload)).1
      = [0x02, 0x01, 0x06] ∧
    (hci.addressHeader 56 29).bytes
        (hci.packetsOver twoRecordEvent (hci.dataHeader twoRecordEvent 56 2)
          (some scanRespPayload)).1
      = [0x62, 0x63, 0x64, 0x97, 0x13, 0x75] := by
  refine ⟨dataHeader_bytes, addressHeader_bytes, ?_, ?_, ?_, ?_, ?_, ?_, ?_, ?_⟩ <;> decide

/-! ### Concrete packets -/

/-- C3: on the scenario B body the accessors report one report, `NumReports() = 1`,
with `RSSI(0) = -55`, and both stay inside the 14 bytes (neither panics). -/
theorem scenarioB_numReports_rssi :
    scenarioB.length = 14 ∧
    evt.LEAdvertisingReport.NumReports scenarioB = some 1 ∧
    evt.LEAdvertisingReport.RSSI scenarioB 0 = some (-55) := by
  decide

/-- C4 as stated fails: on the scenario B body the accessors do not return
event type 0x01, address type 0x00, address de:b4:c0:f9:90:fa and data
length 2. -/
theorem scenarioB_fields_not_as_listed :
    ¬ (evt.LEAdvertisingReport.EventType scenarioB 0 = some 0x01 ∧
       evt.LEAdvertisingReport.AddressType scenarioB 0 = some 0x00 ∧
       evt.LEAdvertisingReport.Address scenarioB 0
         = some [0xDE, 0xB4, 0xC0, 0xF9, 0x90, 0xFA] ∧
       evt.LEAdvertisingReport.LengthData scenarioB 0 = some 2) := by
  decide

/-- C4 amended: on the scenario B body, whose first byte is the subevent code
and second the report count, `EventType(0) = 0x00`, `AddressType(0) = 0xDE`,
`Address(0) = [0xB4, 0xC0, 0xF9, 0x90, 0xFA, 0x02]` and `LengthData(0) = 2`. -/
theorem scenarioB_fields :
    evt.LEAdvertisingReport.EventType scenarioB 0 = some 0x00 ∧
    evt.LEAdvertisingReport.AddressType scenarioB 0 = some 0xDE ∧
    evt.LEAdvertisingReport.Address scenarioB 0
      = some [0xB4, 0xC0, 0xF9, 0x90, 0xFA, 0x02] ∧
    evt.LEAdvertisingReport.LengthData scenarioB 0 = some 2 := by
  decide

/-- C8: what `evt.NewExtendedAdvertisingReport` returns on the sample packet of
its own comment: the fields after the address are read two bytes late
(`PrimaryPHY = 0xff`, `RSSI = 0`, `DataLength = 1`, `Data = [0x1a]`, ...). -/
theorem sample_packet_decoded_two_bytes_late :
    samplePacket.length = 53 ∧
    evt.NewExtendedAdvertisingReport samplePacket =
      .ok { SubeventCode := 0x0d
            NumReports := 1
            Reports := [{ EventType := 0x0010
                          AddressType := 0x01
                          Address := [0x87, 0xe8, 0xdb, 0x97, 0x13, 0x75]
                          PrimaryPHY := 0xff
                          SecondaryPHY := 0x7f
                          AdvertisingSID := 0xde
                          TXPower := 0
                          RSSI := 0
                          PeriodicAdvertisingInterval := 0
                          DirectAddressType := 0
                          DirectAddress := [0, 0, 0, 0, 0x1b, 0x02]
                          DataLength := 1
                          Data := [0x1a]
                          ScanRespIsNil := true }] } := by
  constructor <;> rfl

/-- C9: `evt.NewExtendedAdvertisingReport` strides by 26, not by
`LEExtendedAdvertisingReportFixedDataLength`: on the two-record input the
second record (first has `DataLength = 0`) is read from offset 28, where the
mark `0x22` is, not from offset 2 + 24 where the mark `0x11` is; and on the
sample packet the record's `Data` is the byte at offset 28, not the bytes
following the 24-byte prefix at offset 26. -/
theorem evt_record_stride_is_26 :
    evt.LEExtendedAdvertisingReportMetaDataLength
        + evt.LEExtendedAdvertisingReportFixedDataLength = 26 ∧
    index twoRecordPacket 26 = some 0x11 ∧
    index twoRecordPacket 28 = some 0x22 ∧
    (evt.NewExtendedAdvertisingReport twoRecordPacket).toOption.map
        (fun r => r.Reports.map (fun d => (d.EventType, d.DataLength.val, d.Data)))
      = some [(0, 0, []), (0x22, 0, [])] ∧
    (evt.NewExtendedAdvertisingReport samplePacket).toOption.map
        (fun r => r.Reports.map (fun d => (d.DataLength.val, d.Data)))
      = some [(1, [0x1a])] ∧
    slice samplePacket 28 29 = some [0x1a] ∧
    slice samplePacket 26 27 = some [0x02] := by
  decide

end BLE
